import Mathlib

/-!
Verification of the interactive debugging subsystem (debugger.go) of the goja
fork.  The definitions below are a shallow embedding of debugger.go: the
debugger state, the pause predicate `checkBreakpoint`, breakpoint resolution,
the pause handler dispatch, the variable-reference registry, and the two
expression evaluators.  VM internals that the debugger merely reads (program,
source map, call-stack length, global object identity) are modelled as explicit
state records; runtime entry points that live outside the debugger module
(RunString, CaptureCallStack, GetLocalVariables) are modelled from the spec as
parameters or record fields and are documented at their declaration.
-/

namespace Goja

/-- debugger.go `Position`: a resolved source position. -/
structure Position where
  filename : String
  line : Int
  column : Int
deriving DecidableEq, Repr

/-- The instruction kinds the debugger distinguishes: `checkBreakpoint` only
performs a type assertion `instr.(call)` on the current instruction, so the
model keeps the `call` opcode and collapses every other opcode into `other`. -/
inductive Instr where
  | call
  | other
deriving DecidableEq, Repr

/-- One source-map entry: a source byte offset, negative when the instruction
has no source position. -/
structure SrcMapItem where
  srcPos : Int
deriving DecidableEq, Repr

/-- The slice of a compiled program the debugger reads: the instruction array,
the parallel source map, and the source object (`prg.src`), modelled as the
function resolving a byte offset to a `Position`; `none` models a nil src. -/
structure Program where
  code : List Instr
  srcMap : List SrcMapItem
  src : Option (Int → Position)

/-- The slice of the VM state the pause predicate reads: the current program
(`none` models a native callout with `vm.prg == nil`), the program counter and
the call-stack depth `len(vm.callStack)`. -/
structure VM where
  prg : Option Program
  pc : Nat
  callStackLen : Nat

/-- debugger.go `Breakpoint`. -/
structure Breakpoint where
  id : Int
  sourcePos : Position
  pc : Int
  enabled : Bool
  hit : Nat
deriving DecidableEq, Repr

/-- debugger.go `DebugCommand`. -/
inductive DebugCommand where
  | debugContinue
  | debugStepOver
  | debugStepInto
  | debugStepOut
  | debugPause
deriving DecidableEq, Repr

/-- Bit `FlagStepMode = 1 << 0` of the `DebugFlags` word. -/
def FlagStepMode : Nat := 1

/-- Bit `FlagPaused = 1 << 1` of the `DebugFlags` word. -/
def FlagPaused : Nat := 2

/-- Go `a &^ b` (AND NOT) on the uint32 flag word. -/
def andNot (a b : Nat) : Nat := a &&& (4294967295 ^^^ b)

/-- The dynamic values the debugger inspects.  The numeric value variants
(valueInt, valueFloat, valueBigInt) are collapsed into one constructor since
the debugger treats them uniformly; an object is its class name together with
its own string-keyed properties in iteration order. -/
inductive Value where
  | vUndefined
  | vNull
  | vNumber (n : Int)
  | vBool (b : Bool)
  | vString (s : String)
  | vObject (className : String) (props : List (String × Value))

/-- debugger.go `Variable` (the `Type` field is `typeTag` here, `Type` being
reserved in Lean). -/
structure Variable where
  name : String
  value : Value
  typeTag : String
  ref : Int

/-- debugger.go `Scope`. -/
structure Scope where
  name : String
  variablesRef : Int
  expensive : Bool
  namedVariables : Int
  indexedVariables : Int

/-- An entry of the `variableRefs` registry (`map[int]interface{}` in Go):
either the scope descriptor map `{"frameID": i, "type": t}` or a pointer to an
object (kept as its class name and property list). -/
inductive RefData where
  | scopeRef (frameID : Int) (scopeType : String)
  | objRef (className : String) (props : List (String × Value))

/-- A function stash (heap environment): the name-to-slot map (`none` models a
nil map) and the value slots (`none` models a nil slot). -/
structure Stash where
  names : Option (List (String × Nat))
  values : List (Option Value)

/-- A VM context as read by `EvaluateInFrame`: the stash, if any. -/
structure FrameCtx where
  stash : Option Stash

/-- The slice of a runtime `StackFrame` the debugger reads.  `localVars` is
the result of `GetLocalVariables`, runtime code outside the debugger module;
modelled from the spec: with debug mode on it returns the frame's named local
bindings as a name-to-value map, and nil (`none`) when the frame has no
heap-resident environment. -/
structure StackFrame where
  localVars : Option (List (String × Value))
  ctx : Option FrameCtx

/-- The mutable debugger state of the `Debugger` struct (the runtime pointer,
the mutex, the handler and the logger are not part of the state: the handler is
passed to `handlePause` explicitly). -/
structure Debugger where
  breakpoints : List (Int × Breakpoint)
  nextID : Int
  flags : Nat
  pcBreakpoints : List (Int × Int)
  stepDepth : Int
  stepMode : DebugCommand
  lastPC : Int
  lastSourceLine : Int
  continueStepAfterCall : Bool
  variableRefs : List (Int × RefData)
  nextVarRef : Int

/-- The state a fresh debugger starts from (`NewDebugger`): empty maps, zero
flags, and `nextVarRef = 1000`; the remaining fields take Go zero values. -/
def newDebugger : Debugger :=
  { breakpoints := []
    nextID := 0
    flags := 0
    pcBreakpoints := []
    stepDepth := 0
    stepMode := DebugCommand.debugContinue
    lastPC := 0
    lastSourceLine := 0
    continueStepAfterCall := false
    variableRefs := []
    nextVarRef := 1000 }

/-- Go map assignment `m[k] = v`: replace the binding if the key is present,
otherwise append it. -/
def assocSet {β : Type} (l : List (Int × β)) (k : Int) (v : β) : List (Int × β) :=
  match l with
  | [] => [(k, v)]
  | (k2, v2) :: rest => if k2 = k then (k, v) :: rest else (k2, v2) :: assocSet rest k v

/-- Go map deletion `delete(m, k)`. -/
def assocErase {β : Type} (l : List (Int × β)) (k : Int) : List (Int × β) :=
  match l with
  | [] => []
  | (k2, v2) :: rest => if k2 = k then assocErase rest k else (k2, v2) :: assocErase rest k

/-- The breakpoint registered for a pc.  Go keeps a `*Breakpoint` in
`d.pcBreakpoints`; the model stores the breakpoint id there and reads the
breakpoint through `d.breakpoints` (the operations keep the two maps in sync,
so a registered id is always present). -/
def Debugger.pcBreakpointAt (d : Debugger) (pc : Nat) : Option (Int × Breakpoint) :=
  match List.lookup (Int.ofNat pc) d.pcBreakpoints with
  | some bid =>
    match List.lookup bid d.breakpoints with
    | some bp => some (bid, bp)
    | none => none
  | none => none

/-- True when the pc index holds no enabled breakpoint for this pc. -/
def Debugger.noEnabledBpAt (d : Debugger) (pc : Nat) : Bool :=
  match d.pcBreakpointAt pc with
  | some e => !e.snd.enabled
  | none => true

/-- debugger.go `Continue` (lines 238-244). -/
def Debugger.Continue (d : Debugger) : Debugger :=
  { d with flags := andNot d.flags FlagPaused, stepMode := DebugCommand.debugContinue }

/-- debugger.go `StepOver` (lines 247-258); `callStackLen` is
`len(d.runtime.vm.callStack)`. -/
def Debugger.StepOver (d : Debugger) (callStackLen : Nat) : Debugger :=
  { d with flags := andNot (d.flags ||| FlagStepMode) FlagPaused
           stepMode := DebugCommand.debugStepOver
           stepDepth := (callStackLen : Int)
           lastPC := -1
           lastSourceLine := -1 }

/-- debugger.go `StepInto` (lines 261-269). -/
def Debugger.StepInto (d : Debugger) : Debugger :=
  { d with flags := andNot (d.flags ||| FlagStepMode) FlagPaused
           stepMode := DebugCommand.debugStepInto }

/-- debugger.go `StepOut` (lines 272-279). -/
def Debugger.StepOut (d : Debugger) (callStackLen : Nat) : Debugger :=
  { d with flags := andNot d.flags FlagPaused
           stepMode := DebugCommand.debugStepOut
           stepDepth := (callStackLen : Int) - 1 }

/-- debugger.go `Pause` (lines 282-287). -/
def Debugger.Pause (d : Debugger) : Debugger :=
  { d with flags := d.flags ||| FlagPaused }

/-- debugger.go `SetStepMode` (lines 223-235). -/
def Debugger.SetStepMode (d : Debugger) (enabled : Bool) : Debugger :=
  if enabled then
    { d with flags := d.flags ||| FlagStepMode, stepMode := DebugCommand.debugStepInto }
  else
    { d with flags := andNot d.flags FlagStepMode }

/-- debugger.go `EnableBreakpoint` (lines 196-207). -/
def Debugger.EnableBreakpoint (d : Debugger) (id : Int) (enabled : Bool) : Bool × Debugger :=
  match List.lookup id d.breakpoints with
  | none => (false, d)
  | some bp =>
    (true, { d with breakpoints := assocSet d.breakpoints id { bp with enabled := enabled } })

/-- debugger.go `RemoveBreakpoint` (lines 178-193). -/
def Debugger.RemoveBreakpoint (d : Debugger) (id : Int) : Bool × Debugger :=
  match List.lookup id d.breakpoints with
  | none => (false, d)
  | some bp =>
    let d2 := { d with breakpoints := assocErase d.breakpoints id }
    if bp.pc ≥ 0 then
      (true, { d2 with pcBreakpoints := assocErase d2.pcBreakpoints bp.pc })
    else
      (true, d2)

/-- One iteration test of the resolution scan (debugger.go lines 300-306): the
source-map entry at `pc` exists (`pc < len(prg.srcMap)`), has a valid source
offset, and resolves to the requested filename and line.  The column is not
consulted. -/
def bpMatchAt (prg : Program) (srcf : Int → Position) (filename : String) (line : Int)
    (pc : Nat) : Bool :=
  match prg.srcMap[pc]? with
  | some item =>
    decide (item.srcPos ≥ 0) && decide ((srcf item.srcPos).filename = filename)
      && decide ((srcf item.srcPos).line = line)
  | none => false

/-- The scan loop of `resolveBreakpoint` (debugger.go lines 299-314): try
`pc, pc+1, ...` for `fuel` iterations (`fuel` is `len(prg.code)` minus the
start), returning the first matching pc. -/
def resolveLoop (prg : Program) (srcf : Int → Position) (filename : String) (line : Int) :
    Nat → Nat → Option Nat
  | _, 0 => none
  | pc, fuel + 1 =>
    if bpMatchAt prg srcf filename line pc then some pc
    else resolveLoop prg srcf filename line (pc + 1) fuel

/-- debugger.go `resolveBreakpoint` (lines 290-318): `prgOpt = none` models a
nil program; a nil `prg.src` also leaves the breakpoint unresolved.  Returns
the updated breakpoint (Go mutates it through the pointer) and the debugger
state with the pc index updated. -/
def Debugger.resolveBreakpoint (d : Debugger) (prgOpt : Option Program) (bp : Breakpoint) :
    Breakpoint × Debugger :=
  match prgOpt with
  | none => (bp, d)
  | some prg =>
    match prg.src with
    | none => (bp, d)
    | some srcf =>
      match resolveLoop prg srcf bp.sourcePos.filename bp.sourcePos.line 0 prg.code.length with
      | some pc =>
        ({ bp with pc := (pc : Int) },
         { d with pcBreakpoints := assocSet d.pcBreakpoints (pc : Int) bp.id })
      | none => (bp, d)

/-- debugger.go `AddBreakpoint` (lines 150-175): allocate the breakpoint, store
it, and resolve it when a program is loaded (`prgOpt = none` models
`d.runtime.vm == nil || d.runtime.vm.prg == nil`).  Returns the new id. -/
def Debugger.AddBreakpoint (d : Debugger) (prgOpt : Option Program) (filename : String)
    (line column : Int) : Int × Debugger :=
  let bp : Breakpoint :=
    { id := d.nextID
      sourcePos := { filename := filename, line := line, column := column }
      pc := -1
      enabled := true
      hit := 0 }
  let d1 := { d with nextID := d.nextID + 1, breakpoints := assocSet d.breakpoints bp.id bp }
  match prgOpt with
  | some prg =>
    let r := d1.resolveBreakpoint (some prg) bp
    (bp.id, { r.snd with breakpoints := assocSet r.snd.breakpoints bp.id r.fst })
  | none => (bp.id, d1)

/-- The current source line for the instruction at `pc`, or -1 when the source
map has no valid position there (debugger.go lines 403-411; the same
computation appears at lines 369-376). -/
def currentSourceLine (prg : Program) (pc : Nat) : Int :=
  match prg.srcMap[pc]? with
  | some item =>
    match prg.src with
    | some srcf => if item.srcPos ≥ 0 then (srcf item.srcPos).line else -1
    | none => -1
  | none => -1

/-- The step-mode branch of the pause predicate (debugger.go lines 395-454),
reached when the breakpoint branch did not fire. -/
def Debugger.stepModeCheck (d : Debugger) (prg : Program) (vm : VM) : Bool × Debugger :=
  if d.flags &&& FlagStepMode ≠ 0 then
    match d.stepMode with
    | DebugCommand.debugStepInto =>
      (true, { d with flags := d.flags ||| FlagPaused })
    | DebugCommand.debugStepOver =>
      if (vm.callStackLen : Int) ≤ d.stepDepth then
        let currentLine := currentSourceLine prg vm.pc
        let isFirstStep := d.lastSourceLine = -1
        let isDifferentLine := currentLine > 0 ∧ currentLine ≠ d.lastSourceLine
        let isReturning := (vm.callStackLen : Int) < d.stepDepth
        let wasValidLine := d.lastSourceLine > 0
        let isInvalidLine := currentLine ≤ 0
        if isFirstStep ∨ isDifferentLine ∨ isReturning then
          if currentLine > 0 ∨ isReturning then
            (true, { d with flags := d.flags ||| FlagPaused })
          else if wasValidLine ∧ isInvalidLine then (false, d)
          else (false, d)
        else if wasValidLine ∧ isInvalidLine then (false, d)
        else (false, d)
      else (false, d)
    | DebugCommand.debugStepOut =>
      if (vm.callStackLen : Int) < d.stepDepth then
        (true, { d with flags := d.flags ||| FlagPaused })
      else (false, d)
    | _ => (false, d)
  else (false, d)

/-- debugger.go `checkBreakpoint` (lines 333-457): the pause predicate, called
by the VM before dispatching the instruction at `vm.pc`.  Returns the Go result
together with the mutated debugger state (the continue-stepping-after-call
latch, breakpoint hit counts through the pc index, and the FlagPaused bit). -/
def Debugger.checkBreakpoint (d : Debugger) (vm : VM) : Bool × Debugger :=
  match vm.prg with
  | none =>
    (decide (d.flags &&& FlagPaused ≠ 0) || decide (d.flags &&& FlagStepMode ≠ 0), d)
  | some prg =>
    if d.flags &&& FlagStepMode ≠ 0 ∧ d.stepMode = DebugCommand.debugStepInto ∧
        prg.code[vm.pc]? = some Instr.call then
      (false, { d with continueStepAfterCall := true })
    else if d.flags &&& FlagPaused ≠ 0 then
      (true, d)
    else
      match d.pcBreakpointAt vm.pc with
      | some e =>
        if e.snd.enabled then
          (true, { d with
                    breakpoints := assocSet d.breakpoints e.fst { e.snd with hit := e.snd.hit + 1 }
                    flags := d.flags ||| FlagPaused })
        else d.stepModeCheck prg vm
      | none => d.stepModeCheck prg vm

/-- The fields of the `DebuggerState` snapshot that the debugger computes
itself (handlePause lines 508-533).  The call-stack fields are produced by the
runtime (`CaptureCallStack` / `buildDebugStack`) and the native function name by
object inspection, all outside the modelled state, so they are not recorded. -/
structure DebuggerState where
  PC : Nat
  SourcePos : Position
  Breakpoint : Option Breakpoint
  StepMode : Bool
  InNativeCall : Bool

/-- The snapshot construction inside `handlePause` (debugger.go lines
477-533): source position from the source map (a Go zero `Position` when there
is none), the breakpoint pointer looked up by pc with no enabled filter, the
step-mode flag bit and the native flag. -/
def Debugger.buildState (d : Debugger) (vm : VM) : DebuggerState :=
  let sourcePos : Position :=
    match vm.prg with
    | some prg =>
      match prg.srcMap[vm.pc]? with
      | some item =>
        match prg.src with
        | some srcf =>
          if item.srcPos ≥ 0 then srcf item.srcPos
          else { filename := "", line := 0, column := 0 }
        | none => { filename := "", line := 0, column := 0 }
      | none => { filename := "", line := 0, column := 0 }
    | none => { filename := "", line := 0, column := 0 }
  { PC := vm.pc
    SourcePos := sourcePos
    Breakpoint := (d.pcBreakpointAt vm.pc).map Prod.snd
    StepMode := decide (d.flags &&& FlagStepMode ≠ 0)
    InNativeCall := vm.prg.isNone }

/-- debugger.go `handlePause` (lines 460-568): with no handler, auto-continue;
otherwise build the snapshot, refresh `lastSourceLine` when the paused line is
valid, call the handler and dispatch its command (`DebugPause` does nothing). -/
def Debugger.handlePause (d : Debugger) (vm : VM)
    (handler : Option (DebuggerState → DebugCommand)) : Debugger :=
  match handler with
  | none => d.Continue
  | some h =>
    let state := d.buildState vm
    let d1 := if state.SourcePos.line > 0 then { d with lastSourceLine := state.SourcePos.line }
              else d
    match h state with
    | DebugCommand.debugContinue => d1.Continue
    | DebugCommand.debugStepOver => d1.StepOver vm.callStackLen
    | DebugCommand.debugStepInto => d1.StepInto
    | DebugCommand.debugStepOut => d1.StepOut vm.callStackLen
    | DebugCommand.debugPause => d1

/-- debugger.go `getValueType` (lines 795-831).  The nil, valueInt, valueFloat
and valueBigInt cases are covered by the collapsed `Value` constructors; the Go
default case ("unknown") is unreachable in the model. -/
def getValueType (v : Value) : String :=
  match v with
  | Value.vNull => "null"
  | Value.vUndefined => "undefined"
  | Value.vNumber _ => "number"
  | Value.vString _ => "string"
  | Value.vBool _ => "boolean"
  | Value.vObject className _ =>
    match className with
    | "Array" => "array"
    | "Function" => "function"
    | "Date" => "date"
    | "RegExp" => "regexp"
    | "Error" => "error"
    | _ => "object"

/-- Allocate a fresh positive registry handle for an object value: the inline
pattern repeated at debugger.go lines 674-679, 712-715, 746-750 and 780-784. -/
def Debugger.allocObjRef (d : Debugger) (className : String) (props : List (String × Value)) :
    Int × Debugger :=
  (d.nextVarRef,
   { d with nextVarRef := d.nextVarRef + 1
            variableRefs := assocSet d.variableRefs d.nextVarRef (RefData.objRef className props) })

/-- The property-to-Variable loop body shared by `getObjectProperties`,
`extractGlobalVariables` and the local branch of `getVariablesForScope`: each
property becomes a `Variable` whose `ref` is a freshly allocated registry
handle when the value is an object, and 0 otherwise. -/
def buildVarStep (acc : List Variable × Debugger) (p : String × Value) :
    List Variable × Debugger :=
  match p.snd with
  | Value.vObject cn ps =>
    let r := acc.snd.allocObjRef cn ps
    (acc.fst ++ [{ name := p.fst, value := p.snd, typeTag := getValueType p.snd, ref := r.fst }],
     r.snd)
  | _ =>
    (acc.fst ++ [{ name := p.fst, value := p.snd, typeTag := getValueType p.snd, ref := 0 }],
     acc.snd)

/-- The property enumeration loop shared by the three Variable-producing
paths. -/
def buildVariables (d : Debugger) (props : List (String × Value)) : List Variable × Debugger :=
  props.foldl buildVarStep ([], d)

/-- debugger.go `extractGlobalVariables` (lines 726-758); `globalProps = none`
models a nil global object, otherwise it holds the own string-keyed properties
of the runtime's global object in iteration order. -/
def Debugger.extractGlobalVariables (d : Debugger)
    (globalProps : Option (List (String × Value))) : List Variable × Debugger :=
  match globalProps with
  | none => ([], d)
  | some props => buildVariables d props

/-- debugger.go `getVariablesForScope` (lines 649-691); `stack` is the result
of the runtime `CaptureCallStack` call. -/
def Debugger.getVariablesForScope (d : Debugger) (stack : List StackFrame)
    (globalProps : Option (List (String × Value))) (frameID : Int) (scopeType : String) :
    List Variable × Debugger :=
  if frameID < 0 ∨ frameID ≥ (stack.length : Int) then ([], d)
  else
    match scopeType with
    | "local" =>
      match stack[frameID.toNat]? with
      | some frame =>
        match frame.localVars with
        | some lv => buildVariables d lv
        | none => ([], d)
      | none => ([], d)
    | "global" => d.extractGlobalVariables globalProps
    | _ => ([], d)

/-- debugger.go `resolveLazyScope` (lines 1015-1034): decode the negative
handle `-(frameID*10 + scopeID)` and dispatch. -/
def Debugger.resolveLazyScope (d : Debugger) (stack : List StackFrame)
    (globalProps : Option (List (String × Value))) (lazyRef : Int) : List Variable × Debugger :=
  let absRef := -lazyRef
  let frameID := absRef / 10
  let scopeID := absRef % 10
  if scopeID = 1 then d.getVariablesForScope stack globalProps frameID "local"
  else if scopeID = 2 then d.getVariablesForScope stack globalProps frameID "global"
  else ([], d)

/-- debugger.go `GetVariables` (lines 612-646): negative handles are lazy
scopes; positive handles are looked up in the registry (an unknown handle
yields nil); a scope descriptor dispatches to `getVariablesForScope` and an
object reference to `getObjectProperties` (whose loop is `buildVariables`). -/
def Debugger.GetVariables (d : Debugger) (stack : List StackFrame)
    (globalProps : Option (List (String × Value))) (variablesRef : Int) :
    List Variable × Debugger :=
  if variablesRef < 0 then d.resolveLazyScope stack globalProps variablesRef
  else
    match List.lookup variablesRef d.variableRefs with
    | none => ([], d)
    | some (RefData.scopeRef frameID scopeType) =>
      d.getVariablesForScope stack globalProps frameID scopeType
    | some (RefData.objRef _ props) => buildVariables d props

/-- debugger.go `createVariableRef` (lines 600-609). -/
def Debugger.createVariableRef (d : Debugger) (frameID : Int) (scopeType : String) :
    Int × Debugger :=
  (d.nextVarRef,
   { d with nextVarRef := d.nextVarRef + 1
            variableRefs := assocSet d.variableRefs d.nextVarRef
              (RefData.scopeRef frameID scopeType) })

/-- debugger.go `GetScopes` (lines 571-597): `vmPresent` models
`d.runtime.vm != nil` and `callStackLen` is `len(d.runtime.vm.callStack)`. -/
def Debugger.GetScopes (d : Debugger) (vmPresent : Bool) (callStackLen : Nat) (frameID : Int) :
    List Scope × Debugger :=
  if vmPresent = false ∨ frameID ≥ (callStackLen : Int) then ([], d)
  else
    let r1 := d.createVariableRef frameID "local"
    let r2 := r1.snd.createVariableRef frameID "global"
    ([{ name := "Local", variablesRef := r1.fst, expensive := false,
        namedVariables := 0, indexedVariables := 0 },
      { name := "Global", variablesRef := r2.fst, expensive := true,
        namedVariables := 0, indexedVariables := 0 }],
     r2.snd)

/-- The slice of runtime state the evaluators manipulate: the identity
(pointer) of the runtime's global object and an allocation counter standing in
for `NewObject` heap allocation. -/
structure RT where
  globalObject : Int
  nextObj : Int

/-- debugger.go `Evaluate` (lines 834-847): the body is a single call to
`d.runtime.RunString(expression)`; the frame argument is not read.  `runString`
is the runtime entry point, outside the debugger module — modelled from the
spec: it runs a source string as a new top-level script in the global
environment and returns the completion value or an error, possibly updating
runtime state. -/
def Debugger.Evaluate (runString : String → RT → Except String Value × RT) (_d : Debugger)
    (rt : RT) (expression : String) (_frameID : Int) : Except String Value × RT :=
  runString expression rt

/-- The evaluation source constructed by `EvaluateInFrame` (debugger.go lines
875-889): a function body declaring each stash-resident name from the carrier
(`var n = this._n;`), returning the user expression, called on `this`. -/
def buildEvalCode (st : Stash) (expression : String) : String :=
  let header := "(function() \x7b\n"
  let decls :=
    match st.names with
    | none => ""
    | some names =>
      names.foldl
        (fun acc p =>
          match st.values[p.snd]? with
          | some (some _) => acc ++ "var " ++ p.fst ++ " = this._" ++ p.fst ++ ";\n"
          | _ => acc)
        ""
  header ++ decls ++ "return (" ++ expression ++ ");\n" ++ "\x7d).call(this)"

/-- The carrier object contents built by `EvaluateInFrame` (debugger.go lines
892-899): one `_name` property per valid stash slot. -/
def buildCarrierProps (st : Stash) : List (String × Value) :=
  match st.names with
  | none => []
  | some names =>
    names.foldl
      (fun acc p =>
        match st.values[p.snd]? with
        | some (some v) => acc ++ [("_" ++ p.fst, v)]
        | _ => acc)
      []

/-- debugger.go `EvaluateInFrame` (lines 850-917): error out with no VM or an
out-of-range frame; delegate to a plain `runString` when the frame has no
heap-resident environment; otherwise build the eval source and the carrier
object, swap the runtime's global object for the carrier, run, and restore the
saved global object.  `vmPresent` models `d.runtime.vm != nil` and `stack` the
`CaptureCallStack` result. -/
def Debugger.EvaluateInFrame (runString : String → RT → Except String Value × RT)
    (_d : Debugger) (rt : RT) (vmPresent : Bool) (stack : List StackFrame)
    (expression : String) (frameIndex : Int) : Except String Value × RT :=
  if vmPresent = false then (Except.error "no active execution context", rt)
  else if frameIndex < 0 ∨ frameIndex ≥ (stack.length : Int) then
    (Except.error ("invalid frame index: " ++ toString frameIndex), rt)
  else
    match stack[frameIndex.toNat]? with
    | none => (Except.error ("invalid frame index: " ++ toString frameIndex), rt)
    | some frame =>
      match frame.ctx with
      | none => runString expression rt
      | some ctx =>
        match ctx.stash with
        | none => runString expression rt
        | some st =>
          let evalCode := buildEvalCode st expression
          let savedGlobal := rt.globalObject
          let rt1 : RT := { globalObject := rt.nextObj, nextObj := rt.nextObj + 1 }
          let r := runString evalCode rt1
          (r.fst, { r.snd with globalObject := savedGlobal })

/-- The debugger operations of the public control surface together with the VM
hooks, as a single alphabet for stating lifetime invariants. -/
inductive DebugOp where
  | addBreakpoint (prgOpt : Option Program) (filename : String) (line column : Int)
  | removeBreakpoint (id : Int)
  | enableBreakpoint (id : Int) (enabled : Bool)
  | setStepMode (enabled : Bool)
  | continueOp
  | stepOver (callStackLen : Nat)
  | stepInto
  | stepOut (callStackLen : Nat)
  | pauseOp
  | checkOp (vm : VM)
  | handlePauseOp (vm : VM) (handler : Option (DebuggerState → DebugCommand))
  | getScopes (vmPresent : Bool) (callStackLen : Nat) (frameID : Int)
  | getVariables (stack : List StackFrame) (globalProps : Option (List (String × Value)))
      (ref : Int)

/-- The state transition of each operation (results other than the state are
dropped). -/
def applyOp (op : DebugOp) (d : Debugger) : Debugger :=
  match op with
  | DebugOp.addBreakpoint prgOpt filename line column =>
    (d.AddBreakpoint prgOpt filename line column).snd
  | DebugOp.removeBreakpoint id => (d.RemoveBreakpoint id).snd
  | DebugOp.enableBreakpoint id enabled => (d.EnableBreakpoint id enabled).snd
  | DebugOp.setStepMode enabled => d.SetStepMode enabled
  | DebugOp.continueOp => d.Continue
  | DebugOp.stepOver n => d.StepOver n
  | DebugOp.stepInto => d.StepInto
  | DebugOp.stepOut n => d.StepOut n
  | DebugOp.pauseOp => d.Pause
  | DebugOp.checkOp vm => (d.checkBreakpoint vm).snd
  | DebugOp.handlePauseOp vm handler => d.handlePause vm handler
  | DebugOp.getScopes vmPresent callStackLen frameID =>
    (d.GetScopes vmPresent callStackLen frameID).snd
  | DebugOp.getVariables stack globalProps ref => (d.GetVariables stack globalProps ref).snd

/-! Helper lemmas about the Go-map model and the flag word. -/

theorem lookup_assocSet_self {β : Type} (l : List (Int × β)) (k : Int) (v : β) :
    List.lookup k (assocSet l k v) = some v := by
  induction l with
  | nil => simp [assocSet, List.lookup]
  | cons h t ih =>
    obtain ⟨k2, v2⟩ := h
    by_cases hk : k2 = k
    · simp [assocSet, hk, List.lookup]
    · simp only [assocSet, if_neg hk, List.lookup]
      rw [show (k == k2) = false by simpa using fun h => hk h.symm]
      exact ih

theorem lookup_assocSet_ne {β : Type} (l : List (Int × β)) (k k2 : Int) (v : β)
    (h : k2 ≠ k) : List.lookup k2 (assocSet l k v) = List.lookup k2 l := by
  have hbe : (k2 == k) = false := by simpa using h
  induction l with
  | nil => simp [assocSet, List.lookup, hbe]
  | cons hd t ih =>
    obtain ⟨k3, v3⟩ := hd
    by_cases hk : k3 = k
    · have hbe3 : (k2 == k3) = false := by simp [hk]; omega
      simp only [assocSet, if_pos hk, List.lookup, hbe, hbe3]
    · simp only [assocSet, if_neg hk, List.lookup]
      cases hbe3 : k2 == k3 with
      | true => rfl
      | false => exact ih

theorem lookup_assocErase_self {β : Type} (l : List (Int × β)) (k : Int) :
    List.lookup k (assocErase l k) = none := by
  induction l with
  | nil => simp [assocErase, List.lookup]
  | cons hd t ih =>
    obtain ⟨k2, v2⟩ := hd
    by_cases hk : k2 = k
    · simpa [assocErase, hk] using ih
    · simp only [assocErase, if_neg hk, List.lookup]
      rw [show (k == k2) = false by simpa using fun h => hk h.symm]
      exact ih

theorem lookup_assocErase_ne {β : Type} (l : List (Int × β)) (k k2 : Int)
    (h : k2 ≠ k) : List.lookup k2 (assocErase l k) = List.lookup k2 l := by
  induction l with
  | nil => simp [assocErase]
  | cons hd t ih =>
    obtain ⟨k3, v3⟩ := hd
    by_cases hk : k3 = k
    · subst hk
      simp only [assocErase, if_pos rfl, List.lookup]
      rw [show (k2 == k3) = false by simpa using h]
      exact ih
    · simp only [assocErase, if_neg hk, List.lookup]
      cases hbe : k2 == k3 with
      | true => rfl
      | false => exact ih

theorem lookup_mem {β : Type} {l : List (Int × β)} {k : Int} {v : β}
    (h : List.lookup k l = some v) : (k, v) ∈ l := by
  induction l with
  | nil => simp [List.lookup] at h
  | cons hd t ih =>
    obtain ⟨k2, v2⟩ := hd
    simp only [List.lookup] at h
    cases hbe : k == k2 with
    | true =>
      rw [hbe] at h
      simp only [Option.some.injEq] at h
      subst h
      have : k = k2 := by simpa using hbe
      subst this
      exact List.mem_cons_self _ _
    | false =>
      rw [hbe] at h
      exact List.mem_cons_of_mem _ (ih h)

theorem mem_assocSet {β : Type} {l : List (Int × β)} {k : Int} {v : β} {p : Int × β}
    (h : p ∈ assocSet l k v) : p = (k, v) ∨ p ∈ l := by
  induction l with
  | nil => simpa [assocSet] using h
  | cons hd t ih =>
    obtain ⟨k2, v2⟩ := hd
    by_cases hk : k2 = k
    · subst hk
      simp only [assocSet, if_pos rfl] at h
      rcases List.mem_cons.mp h with h1 | h1
      · exact Or.inl h1
      · exact Or.inr (List.mem_cons_of_mem _ h1)
    · simp only [assocSet, if_neg hk] at h
      rcases List.mem_cons.mp h with h1 | h1
      · exact Or.inr (by simp [h1])
      · rcases ih h1 with h2 | h2
        · exact Or.inl h2
        · exact Or.inr (List.mem_cons_of_mem _ h2)

theorem mem_assocErase {β : Type} {l : List (Int × β)} {k : Int} {p : Int × β}
    (h : p ∈ assocErase l k) : p ∈ l := by
  induction l with
  | nil => simp [assocErase] at h
  | cons hd t ih =>
    obtain ⟨k2, v2⟩ := hd
    by_cases hk : k2 = k
    · simp only [assocErase, if_pos hk] at h
      exact List.mem_cons_of_mem _ (ih h)
    · simp only [assocErase, if_neg hk] at h
      rcases List.mem_cons.mp h with h1 | h1
      · simp [h1]
      · exact List.mem_cons_of_mem _ (ih h1)

theorem lookup_none_of_keys_lt {β : Type} {l : List (Int × β)} {n : Int}
    (h : ∀ p ∈ l, p.fst < n) : List.lookup n l = none := by
  induction l with
  | nil => simp [List.lookup]
  | cons hd t ih =>
    obtain ⟨k2, v2⟩ := hd
    simp only [List.lookup]
    have hk2 : k2 < n := h (k2, v2) (List.mem_cons_self _ _)
    rw [show (n == k2) = false by simp; omega]
    exact ih fun p hp => h p (List.mem_cons_of_mem _ hp)

theorem lor_two_land_two (n : Nat) : (n ||| 2) &&& 2 = 2 := by
  apply Nat.eq_of_testBit_eq
  intro k
  rw [Nat.testBit_and, Nat.testBit_or]
  rcases k with _ | _ | k <;> simp [Nat.testBit_succ]

theorem lor_two_land_one (n : Nat) : (n ||| 2) &&& 1 = n &&& 1 := by
  apply Nat.eq_of_testBit_eq
  intro k
  rw [Nat.testBit_and, Nat.testBit_or, Nat.testBit_and]
  rcases k with _ | _ | k <;> simp [Nat.testBit_succ]

/-- The first three checks of the pause predicate in a compiled context, when
none of them decides: the predicate reduces to its step-mode branch. -/
theorem checkBreakpoint_to_step {d : Debugger} {vm : VM} {prg : Program}
    (hprg : vm.prg = some prg)
    (hnodefer : ¬(d.flags &&& FlagStepMode ≠ 0 ∧ d.stepMode = DebugCommand.debugStepInto ∧
      prg.code[vm.pc]? = some Instr.call))
    (hpause : d.flags &&& FlagPaused = 0)
    (hno : d.noEnabledBpAt vm.pc = true) :
    d.checkBreakpoint vm = d.stepModeCheck prg vm := by
  simp only [Debugger.checkBreakpoint, hprg]
  rw [if_neg hnodefer, if_neg (by simp [hpause])]
  cases hbp : d.pcBreakpointAt vm.pc with
  | none => rfl
  | some e =>
    have hen : e.snd.enabled = false := by
      simpa [Debugger.noEnabledBpAt, hbp] using hno
    simp [hen]

/-! Concrete states used by witnesses and counterexamples. -/

/-- A single non-call instruction whose source-map entry is invalid. -/
def prgNoSrcPos : Program :=
  { code := [Instr.other]
    srcMap := [{ srcPos := -1 }]
    src := some fun _ => { filename := "test.js", line := 1, column := 1 } }

/-- A single call instruction with a valid source-map entry. -/
def prgCall : Program :=
  { code := [Instr.call]
    srcMap := [{ srcPos := 0 }]
    src := some fun _ => { filename := "test.js", line := 2, column := 1 } }

def dStepInto : Debugger :=
  { newDebugger with flags := FlagStepMode, stepMode := DebugCommand.debugStepInto }

def vmNoSrcPos : VM := { prg := some prgNoSrcPos, pc := 0, callStackLen := 1 }

def vmCall : VM := { prg := some prgCall, pc := 0, callStackLen := 1 }

def dNative : Debugger := { newDebugger with flags := FlagStepMode }

def vmNative : VM := { prg := none, pc := 3, callStackLen := 2 }

/-! C5 — native-context short-circuit of the pause predicate. -/

/-- C5: in a VM context with no compiled program the pause predicate returns
true iff the async-pause flag or the step-mode flag is set, and it consults no
breakpoint and changes no state, so without those flags native execution never
produces a pause event. -/
theorem checkBreakpoint_native (d : Debugger) (vm : VM) (h : vm.prg = none) :
    ((d.checkBreakpoint vm).fst = true ↔
      (d.flags &&& FlagPaused ≠ 0 ∨ d.flags &&& FlagStepMode ≠ 0)) ∧
    (d.checkBreakpoint vm).snd = d := by
  simp [Debugger.checkBreakpoint, h]

/-- Witness for C5 at a concrete native context with step mode armed. -/
theorem checkBreakpoint_native_witness :
    (dNative.checkBreakpoint vmNative).fst = true ∧
    (dNative.checkBreakpoint vmNative).snd = dNative :=
  ⟨((checkBreakpoint_native dNative vmNative rfl).1).mpr (Or.inr (by decide)),
   (checkBreakpoint_native dNative vmNative rfl).2⟩

/-! C1 — step-into behavior of the pause predicate. -/

/-- C1 (amended): with step mode active and the step-into command, at a call
instruction the predicate does not pause and sets the
continue-stepping-after-call latch; at any other instruction (once the paused
flag and the breakpoint index have not already decided) it pauses
unconditionally, regardless of whether the source-map entry resolves to a
valid source position. -/
theorem stepInto_pause_behavior (d : Debugger) (vm : VM) (prg : Program)
    (hprg : vm.prg = some prg)
    (hstep : d.flags &&& FlagStepMode ≠ 0)
    (hmode : d.stepMode = DebugCommand.debugStepInto) :
    (prg.code[vm.pc]? = some Instr.call →
      d.checkBreakpoint vm = (false, { d with continueStepAfterCall := true })) ∧
    (prg.code[vm.pc]? ≠ some Instr.call → d.flags &&& FlagPaused = 0 →
      d.noEnabledBpAt vm.pc = true →
      d.checkBreakpoint vm = (true, { d with flags := d.flags ||| FlagPaused })) := by
  constructor
  · intro hcall
    simp only [Debugger.checkBreakpoint, hprg]
    rw [if_pos ⟨hstep, hmode, hcall⟩]
  · intro hcall hpause hno
    rw [checkBreakpoint_to_step hprg (fun h => hcall h.2.2) hpause hno]
    simp only [Debugger.stepModeCheck, hmode]
    rw [if_pos hstep]

/-- C1 counterexample: under step-into, the predicate pauses at a non-call
instruction whose source-map entry is invalid (srcPos = -1, no source line),
contradicting the claim that it pauses only at a valid source position. -/
theorem stepInto_pause_counterexample :
    (dStepInto.checkBreakpoint vmNoSrcPos).fst = true ∧
    prgNoSrcPos.code[vmNoSrcPos.pc]? = some Instr.other ∧
    currentSourceLine prgNoSrcPos vmNoSrcPos.pc = -1 ∧
    dStepInto.flags &&& FlagStepMode ≠ 0 ∧
    dStepInto.stepMode = DebugCommand.debugStepInto ∧
    dStepInto.flags &&& FlagPaused = 0 ∧
    dStepInto.noEnabledBpAt vmNoSrcPos.pc = true := by
  decide

/-- Witness for C1 at concrete inputs: a call instruction defers and latches,
and a non-call instruction with no source position pauses. -/
theorem stepInto_pause_witness :
    dStepInto.checkBreakpoint vmCall =
      (false, { dStepInto with continueStepAfterCall := true }) ∧
    dStepInto.checkBreakpoint vmNoSrcPos =
      (true, { dStepInto with flags := dStepInto.flags ||| FlagPaused }) :=
  ⟨(stepInto_pause_behavior dStepInto vmCall prgCall rfl (by decide) rfl).1 rfl,
   (stepInto_pause_behavior dStepInto vmNoSrcPos prgNoSrcPos rfl (by decide) rfl).2
     (by decide) (by decide) (by decide)⟩

/-! C2 — step-over behavior of the pause predicate. -/

/-- C2 (amended): with step mode active and the step-over command (and the
paused flag and the breakpoint index not already deciding): above the depth
baseline the predicate does not pause; below it, it pauses; at equal depth it
pauses iff the current source line L satisfies L > 0 and (lastLine is
uninitialized or L differs from lastLine) — in particular the first predicate
evaluation after resume does not pause when L is invalid — and lastLine is
carried forward unchanged. -/
theorem stepOver_behavior (d : Debugger) (vm : VM) (prg : Program)
    (hprg : vm.prg = some prg)
    (hstep : d.flags &&& FlagStepMode ≠ 0)
    (hmode : d.stepMode = DebugCommand.debugStepOver)
    (hpause : d.flags &&& FlagPaused = 0)
    (hno : d.noEnabledBpAt vm.pc = true) :
    ((vm.callStackLen : Int) > d.stepDepth → d.checkBreakpoint vm = (false, d)) ∧
    ((vm.callStackLen : Int) < d.stepDepth →
      d.checkBreakpoint vm = (true, { d with flags := d.flags ||| FlagPaused })) ∧
    ((vm.callStackLen : Int) = d.stepDepth →
      ((d.checkBreakpoint vm).fst = true ↔
        (currentSourceLine prg vm.pc > 0 ∧
          (d.lastSourceLine = -1 ∨ currentSourceLine prg vm.pc ≠ d.lastSourceLine))) ∧
      (d.checkBreakpoint vm).snd.lastSourceLine = d.lastSourceLine) := by
  have hred : d.checkBreakpoint vm = d.stepModeCheck prg vm :=
    checkBreakpoint_to_step hprg (fun h => by simp [hmode] at h) hpause hno
  rw [hred]
  simp only [Debugger.stepModeCheck, hmode]
  rw [if_pos hstep]
  set L := currentSourceLine prg vm.pc with hLdef
  refine ⟨?_, ?_, ?_⟩
  · intro hgt
    rw [if_neg (by omega)]
  · intro hlt
    rw [if_pos (by omega), if_pos (Or.inr (Or.inr hlt)), if_pos (Or.inr hlt)]
  · intro heq
    rw [if_pos (le_of_eq heq)]
    have hret : ¬((vm.callStackLen : Int) < d.stepDepth) := by omega
    constructor
    · constructor
      · intro hfst
        by_cases c1 : d.lastSourceLine = -1 ∨ (L > 0 ∧ L ≠ d.lastSourceLine) ∨
            (vm.callStackLen : Int) < d.stepDepth
        · rw [if_pos c1] at hfst
          by_cases c2 : L > 0 ∨ (vm.callStackLen : Int) < d.stepDepth
          · rcases c1 with h1 | h1 | h1
            · exact ⟨c2.resolve_right hret, Or.inl h1⟩
            · exact ⟨h1.1, Or.inr h1.2⟩
            · exact absurd h1 hret
          · rw [if_neg c2] at hfst
            simp at hfst
        · rw [if_neg c1] at hfst
          simp at hfst
      · intro hrhs
        have c1 : d.lastSourceLine = -1 ∨ (L > 0 ∧ L ≠ d.lastSourceLine) ∨
            (vm.callStackLen : Int) < d.stepDepth := by
          rcases hrhs.2 with h1 | h1
          · exact Or.inl h1
          · exact Or.inr (Or.inl ⟨hrhs.1, h1⟩)
        rw [if_pos c1, if_pos (Or.inl hrhs.1)]
    · split_ifs <;> rfl

def dStepOverFirst : Debugger :=
  { newDebugger with
    flags := FlagStepMode
    stepMode := DebugCommand.debugStepOver
    stepDepth := 1
    lastPC := -1
    lastSourceLine := -1 }

/-- C2 counterexample: at equal depth, on the first predicate evaluation after
resume (lastLine = -1) with no valid current source line, the claim requires a
pause but the predicate returns false. -/
theorem stepOver_first_step_counterexample :
    (dStepOverFirst.checkBreakpoint vmNoSrcPos).fst = false ∧
    dStepOverFirst.lastSourceLine = -1 ∧
    (vmNoSrcPos.callStackLen : Int) = dStepOverFirst.stepDepth ∧
    dStepOverFirst.flags &&& FlagStepMode ≠ 0 ∧
    dStepOverFirst.flags &&& FlagPaused = 0 ∧
    dStepOverFirst.stepMode = DebugCommand.debugStepOver ∧
    dStepOverFirst.noEnabledBpAt vmNoSrcPos.pc = true := by
  decide

def dStepOverRet : Debugger :=
  { newDebugger with
    flags := FlagStepMode
    stepMode := DebugCommand.debugStepOver
    stepDepth := 2
    lastPC := -1
    lastSourceLine := -1 }

/-- Witness for C2 at a concrete input: the callee returned (depth below the
baseline), so the predicate pauses. -/
theorem stepOver_behavior_witness :
    dStepOverRet.checkBreakpoint vmNoSrcPos =
      (true, { dStepOverRet with flags := dStepOverRet.flags ||| FlagPaused }) :=
  (stepOver_behavior dStepOverRet vmNoSrcPos prgNoSrcPos rfl (by decide) rfl (by decide)
    (by decide)).2.1 (by decide)

/-! C7 — Evaluate ignores its frame argument. -/

/-- C7: `Evaluate` produces the same result for any two frame ids: it ignores
the frame argument and is the plain `runString` of the expression — a new
top-level script in the global environment, with no frame locals resolved. -/
theorem evaluate_ignores_frame (runString : String → RT → Except String Value × RT)
    (d : Debugger) (rt : RT) (expression : String) (f1 f2 : Int) :
    Debugger.Evaluate runString d rt expression f1 =
      Debugger.Evaluate runString d rt expression f2 ∧
    Debugger.Evaluate runString d rt expression f1 = runString expression rt :=
  ⟨rfl, rfl⟩

/-! C8 — EvaluateInFrame restores the global object. -/

/-- C8: on the carrier-based path of `EvaluateInFrame` (the selected frame has
a heap-resident environment), the runtime's global object after the call is the
one from before the call, whatever result or error the evaluation produces and
whatever the evaluation did to the runtime state: the temporary swap is not
observable after the call returns. -/
theorem evaluateInFrame_restores_global (runString : String → RT → Except String Value × RT)
    (d : Debugger) (rt : RT) (stack : List StackFrame) (expression : String) (i : Int)
    (frame : StackFrame) (ctx : FrameCtx) (st : Stash)
    (h0 : 0 ≤ i) (hfr : stack[i.toNat]? = some frame)
    (hctx : frame.ctx = some ctx) (hst : ctx.stash = some st) :
    (Debugger.EvaluateInFrame runString d rt true stack expression i).snd.globalObject =
      rt.globalObject := by
  have hlt : i.toNat < stack.length := by
    by_contra hge
    rw [List.getElem?_eq_none (by omega)] at hfr
    exact Option.noConfusion hfr
  have hcond : ¬(i < 0 ∨ i ≥ (stack.length : Int)) := by omega
  simp only [Debugger.EvaluateInFrame, hfr, hctx, hst]
  rw [if_neg (by simp), if_neg hcond]

def runStringClobber : String → RT → Except String Value × RT :=
  fun _ rt => (Except.ok Value.vUndefined, { globalObject := 777, nextObj := rt.nextObj })

def stashW : Stash := { names := some [("x", 0)], values := [some (Value.vNumber 5)] }

def frameW : StackFrame :=
  { localVars := some [("x", Value.vNumber 5)], ctx := some { stash := some stashW } }

def rtW : RT := { globalObject := 42, nextObj := 2000 }

/-- Witness for C8 at a concrete input whose evaluation clobbers the global
object: it is restored to 42 anyway. -/
theorem evaluateInFrame_restores_global_witness :
    (Debugger.EvaluateInFrame runStringClobber newDebugger rtW true [frameW] "x + 1"
        0).snd.globalObject = rtW.globalObject :=
  evaluateInFrame_restores_global runStringClobber newDebugger rtW [frameW] "x + 1" 0
    frameW { stash := some stashW } stashW (by decide) rfl rfl rfl

/-! C3 — the snapshot's Breakpoint field. -/

/-- C3 (amended): the snapshot's Breakpoint field is set iff the PC index has
an entry for the current PC, regardless of the breakpoint's enabled flag; in
particular a pause at the PC of a disabled breakpoint yields a snapshot with
that breakpoint included. -/
theorem snapshot_breakpoint_field (d : Debugger) (vm : VM) :
    ((d.buildState vm).Breakpoint.isSome ↔ (d.pcBreakpointAt vm.pc).isSome) ∧
    (∀ bid bp, d.pcBreakpointAt vm.pc = some (bid, bp) →
      (d.buildState vm).Breakpoint = some bp) := by
  constructor
  · simp [Debugger.buildState]
  · intro bid bp h
    simp [Debugger.buildState, h]

def bpDisabled : Breakpoint :=
  { id := 1
    sourcePos := { filename := "test.js", line := 1, column := 1 }
    pc := 0
    enabled := false
    hit := 0 }

def dDisabledBp : Debugger :=
  { newDebugger with
    breakpoints := [(1, bpDisabled)]
    pcBreakpoints := [(0, 1)]
    nextID := 2
    flags := FlagPaused }

/-- C3 counterexample: at a pause (the predicate returns true in this state)
whose PC is indexed by a disabled breakpoint, the snapshot includes that
breakpoint, contradicting the claim that a disabled breakpoint yields a
snapshot with no Breakpoint. -/
theorem snapshot_breakpoint_counterexample :
    (dDisabledBp.checkBreakpoint vmNoSrcPos).fst = true ∧
    (dDisabledBp.buildState vmNoSrcPos).Breakpoint = some bpDisabled ∧
    bpDisabled.enabled = false := by
  decide

/-- Witness for C3 at a concrete input: the indexed (disabled) breakpoint is
returned in the snapshot. -/
theorem snapshot_breakpoint_witness :
    (dDisabledBp.buildState vmNoSrcPos).Breakpoint = some bpDisabled :=
  (snapshot_breakpoint_field dDisabledBp vmNoSrcPos).2 1 bpDisabled (by decide)

/-! C10 — handler returning the Pause command. -/

theorem stepModeCheck_cases (d : Debugger) (prg : Program) (vm : VM) :
    d.stepModeCheck prg vm = (false, d) ∨
    d.stepModeCheck prg vm = (true, { d with flags := d.flags ||| FlagPaused }) := by
  unfold Debugger.stepModeCheck
  by_cases h : d.flags &&& FlagStepMode ≠ 0
  · rw [if_pos h]
    cases hsm : d.stepMode
    · exact Or.inl rfl
    · dsimp only
      split_ifs <;> first | exact Or.inl rfl | exact Or.inr rfl
    · exact Or.inr rfl
    · dsimp only
      split_ifs <;> first | exact Or.inl rfl | exact Or.inr rfl
    · exact Or.inl rfl
  · rw [if_neg h]
    exact Or.inl rfl

/-- The pause predicate never changes the step-mode command, and either leaves
the flag word alone or just sets the FlagPaused bit. -/
theorem checkBreakpoint_snd_core (d : Debugger) (vm : VM) :
    ((d.checkBreakpoint vm).snd.stepMode = d.stepMode) ∧
    ((d.checkBreakpoint vm).snd.flags = d.flags ∨
      (d.checkBreakpoint vm).snd.flags = d.flags ||| FlagPaused) := by
  cases hprg : vm.prg with
  | none => simp [Debugger.checkBreakpoint, hprg]
  | some prg =>
    simp only [Debugger.checkBreakpoint, hprg]
    split_ifs with h1 h2
    · exact ⟨rfl, Or.inl rfl⟩
    · exact ⟨rfl, Or.inl rfl⟩
    · cases hbp : d.pcBreakpointAt vm.pc with
      | some e =>
        dsimp only
        by_cases h3 : e.snd.enabled = true
        · rw [if_pos h3]
          exact ⟨rfl, Or.inr rfl⟩
        · rw [if_neg h3]
          rcases stepModeCheck_cases d prg vm with hc | hc <;> rw [hc]
          · exact ⟨rfl, Or.inl rfl⟩
          · exact ⟨rfl, Or.inr rfl⟩
      | none =>
        dsimp only
        rcases stepModeCheck_cases d prg vm with hc | hc <;> rw [hc]
        · exact ⟨rfl, Or.inl rfl⟩
        · exact ⟨rfl, Or.inr rfl⟩

/-- When the predicate decides to pause in a compiled context, the resulting
state has the FlagPaused bit set. -/
theorem checkBreakpoint_true_paused {d : Debugger} {vm : VM} {prg : Program}
    (hprg : vm.prg = some prg) (hfst : (d.checkBreakpoint vm).fst = true) :
    (d.checkBreakpoint vm).snd.flags &&& FlagPaused ≠ 0 := by
  simp only [Debugger.checkBreakpoint, hprg] at hfst ⊢
  by_cases h1 : d.flags &&& FlagStepMode ≠ 0 ∧ d.stepMode = DebugCommand.debugStepInto ∧
      prg.code[vm.pc]? = some Instr.call
  · rw [if_pos h1] at hfst
    simp at hfst
  · rw [if_neg h1] at hfst ⊢
    by_cases h2 : d.flags &&& FlagPaused ≠ 0
    · rw [if_pos h2]
      exact h2
    · rw [if_neg h2] at hfst ⊢
      cases hbp : d.pcBreakpointAt vm.pc with
      | some e =>
        rw [hbp] at hfst
        dsimp only at hfst ⊢
        by_cases h3 : e.snd.enabled = true
        · rw [if_pos h3]
          have hb : (d.flags ||| FlagPaused) &&& FlagPaused = 2 := lor_two_land_two d.flags
          simp [hb]
        · rw [if_neg h3] at hfst ⊢
          rcases stepModeCheck_cases d prg vm with hc | hc
          · rw [hc] at hfst
            simp at hfst
          · rw [hc]
            have hb : (d.flags ||| FlagPaused) &&& FlagPaused = 2 := lor_two_land_two d.flags
            simp [hb]
      | none =>
        rw [hbp] at hfst
        dsimp only at hfst ⊢
        rcases stepModeCheck_cases d prg vm with hc | hc
        · rw [hc] at hfst
          simp at hfst
        · rw [hc]
          have hb : (d.flags ||| FlagPaused) &&& FlagPaused = 2 := lor_two_land_two d.flags
          simp [hb]

/-- When the predicate decides to pause, the step-into call deferral cannot
have applied. -/
theorem checkBreakpoint_true_nodefer {d : Debugger} {vm : VM} {prg : Program}
    (hprg : vm.prg = some prg) (hfst : (d.checkBreakpoint vm).fst = true) :
    ¬(d.flags &&& FlagStepMode ≠ 0 ∧ d.stepMode = DebugCommand.debugStepInto ∧
      prg.code[vm.pc]? = some Instr.call) := by
  intro hc
  simp only [Debugger.checkBreakpoint, hprg] at hfst
  rw [if_pos hc] at hfst
  simp at hfst

/-- After a pause decision, any state agreeing with the post-predicate state on
the flag word and the step-mode command makes the predicate fire again at the
same VM position. -/
theorem checkBreakpoint_true_again (d d2 : Debugger) (vm : VM)
    (hfst : (d.checkBreakpoint vm).fst = true)
    (hflags : d2.flags = (d.checkBreakpoint vm).snd.flags)
    (hsm : d2.stepMode = (d.checkBreakpoint vm).snd.stepMode) :
    (d2.checkBreakpoint vm).fst = true := by
  cases hprg : vm.prg with
  | none =>
    have hsnd : (d.checkBreakpoint vm).snd = d := by
      simp [Debugger.checkBreakpoint, hprg]
    rw [hsnd] at hflags
    simp only [Debugger.checkBreakpoint, hprg] at hfst ⊢
    rw [hflags]
    exact hfst
  | some prg =>
    have hND := checkBreakpoint_true_nodefer hprg hfst
    have hcore := checkBreakpoint_snd_core d vm
    have hpaused := checkBreakpoint_true_paused hprg hfst
    have hsm2 : d2.stepMode = d.stepMode := by rw [hsm, hcore.1]
    have hstepbit : d2.flags &&& FlagStepMode = d.flags &&& FlagStepMode := by
      rcases hcore.2 with h | h
      · rw [hflags, h]
      · rw [hflags, h]
        exact lor_two_land_one d.flags
    have hpaused2 : d2.flags &&& FlagPaused ≠ 0 := by
      rw [hflags]
      exact hpaused
    simp only [Debugger.checkBreakpoint, hprg]
    rw [if_neg (fun hc => hND ⟨by rw [hstepbit] at hc; exact hc.1,
          by rw [hsm2] at hc; exact hc.2.1, hc.2.2⟩),
        if_pos hpaused2]

/-- C10 (amended): when the handler returns Pause, `handlePause` leaves every
debugger field unchanged except `lastSourceLine` (refreshed to the paused
source line when it is valid) — in particular the paused flag stays set and the
step mode is untouched — and consequently the pause predicate returns true
again before the very next instruction. -/
theorem handlePause_pause_command (d : Debugger) (vm : VM)
    (h : DebuggerState → DebugCommand)
    (hfst : (d.checkBreakpoint vm).fst = true)
    (hp : h ((d.checkBreakpoint vm).snd.buildState vm) = DebugCommand.debugPause) :
    ((d.checkBreakpoint vm).snd.handlePause vm (some h)).flags =
      (d.checkBreakpoint vm).snd.flags ∧
    ((d.checkBreakpoint vm).snd.handlePause vm (some h)).stepMode =
      (d.checkBreakpoint vm).snd.stepMode ∧
    ((d.checkBreakpoint vm).snd.handlePause vm (some h)).stepDepth =
      (d.checkBreakpoint vm).snd.stepDepth ∧
    ((d.checkBreakpoint vm).snd.handlePause vm (some h)).breakpoints =
      (d.checkBreakpoint vm).snd.breakpoints ∧
    ((d.checkBreakpoint vm).snd.handlePause vm (some h)).pcBreakpoints =
      (d.checkBreakpoint vm).snd.pcBreakpoints ∧
    ((d.checkBreakpoint vm).snd.handlePause vm (some h)).variableRefs =
      (d.checkBreakpoint vm).snd.variableRefs ∧
    ((d.checkBreakpoint vm).snd.handlePause vm (some h)).nextVarRef =
      (d.checkBreakpoint vm).snd.nextVarRef ∧
    ((d.checkBreakpoint vm).snd.handlePause vm (some h)).nextID =
      (d.checkBreakpoint vm).snd.nextID ∧
    ((d.checkBreakpoint vm).snd.handlePause vm (some h)).continueStepAfterCall =
      (d.checkBreakpoint vm).snd.continueStepAfterCall ∧
    ((d.checkBreakpoint vm).snd.handlePause vm (some h)).lastPC =
      (d.checkBreakpoint vm).snd.lastPC ∧
    ((((d.checkBreakpoint vm).snd.handlePause vm (some h)).checkBreakpoint vm).fst = true) := by
  have hhp : (d.checkBreakpoint vm).snd.handlePause vm (some h) =
      (if ((d.checkBreakpoint vm).snd.buildState vm).SourcePos.line > 0 then
        { (d.checkBreakpoint vm).snd with
            lastSourceLine := ((d.checkBreakpoint vm).snd.buildState vm).SourcePos.line }
      else (d.checkBreakpoint vm).snd) := by
    simp only [Debugger.handlePause, hp]
  rw [hhp]
  have hcore := checkBreakpoint_snd_core d vm
  split_ifs with hline
  · refine ⟨rfl, rfl, rfl, rfl, rfl, rfl, rfl, rfl, rfl, rfl, ?_⟩
    exact checkBreakpoint_true_again d _ vm hfst rfl rfl
  · refine ⟨rfl, rfl, rfl, rfl, rfl, rfl, rfl, rfl, rfl, rfl, ?_⟩
    exact checkBreakpoint_true_again d _ vm hfst rfl rfl

/-- A program whose single instruction maps to source line 5. -/
def prgLine5 : Program :=
  { code := [Instr.other]
    srcMap := [{ srcPos := 0 }]
    src := some fun _ => { filename := "test.js", line := 5, column := 1 } }

def vmLine5 : VM := { prg := some prgLine5, pc := 0, callStackLen := 1 }

def dPausedC10 : Debugger := { newDebugger with flags := FlagPaused }

/-- C10 counterexample: with a handler that returns Pause, `handlePause` does
not leave all debugger state unchanged — it refreshes `lastSourceLine` to the
paused line (5) even though the command was Pause. -/
theorem handlePause_pause_counterexample :
    (dPausedC10.checkBreakpoint vmLine5).fst = true ∧
    (dPausedC10.handlePause vmLine5 (some fun _ => DebugCommand.debugPause)).lastSourceLine
      = 5 ∧
    dPausedC10.lastSourceLine = 0 := by
  decide

/-- Witness for C10 at a concrete input: after the Pause-returning handler the
flags are untouched and the predicate fires again. -/
theorem handlePause_pause_witness :
    ((dPausedC10.checkBreakpoint vmLine5).snd.handlePause vmLine5
        (some fun _ => DebugCommand.debugPause)).flags =
      (dPausedC10.checkBreakpoint vmLine5).snd.flags ∧
    ((((dPausedC10.checkBreakpoint vmLine5).snd.handlePause vmLine5
        (some fun _ => DebugCommand.debugPause)).checkBreakpoint vmLine5).fst = true) := by
  have happ := handlePause_pause_command dPausedC10 vmLine5 (fun _ => DebugCommand.debugPause)
    (by decide) rfl
  exact ⟨happ.1, happ.2.2.2.2.2.2.2.2.2.2⟩

/-! C4 — breakpoint resolution picks the smallest matching PC. -/

/-- A PC of the loaded program matches the requested (filename, line): the
scan test of `resolveBreakpoint` including the nil-src guard. -/
def progMatch (prg : Program) (filename : String) (line : Int) (pc : Nat) : Bool :=
  match prg.src with
  | some srcf => bpMatchAt prg srcf filename line pc
  | none => false

theorem resolveLoop_none_iff (prg : Program) (srcf : Int → Position) (filename : String)
    (line : Int) :
    ∀ (fuel start : Nat), resolveLoop prg srcf filename line start fuel = none ↔
      ∀ k, k < fuel → bpMatchAt prg srcf filename line (start + k) = false := by
  intro fuel
  induction fuel with
  | zero =>
    intro start
    simp [resolveLoop]
  | succ n ih =>
    intro start
    simp only [resolveLoop]
    by_cases h : bpMatchAt prg srcf filename line start = true
    · rw [if_pos h]
      constructor
      · intro hc
        exact absurd hc (by simp)
      · intro hall
        have h0 := hall 0 (Nat.succ_pos n)
        rw [Nat.add_zero, h] at h0
        cases h0
    · rw [if_neg h]
      rw [ih (start + 1)]
      constructor
      · intro hall k hk
        cases k with
        | zero =>
          rw [Nat.add_zero]
          exact eq_false_of_ne_true h
        | succ m =>
          have hm := hall m (by omega)
          rw [show start + (m + 1) = start + 1 + m by omega]
          exact hm
      · intro hall k hk
        have hm := hall (k + 1) (by omega)
        rw [show start + 1 + k = start + (k + 1) by omega]
        exact hm

theorem resolveLoop_some_spec (prg : Program) (srcf : Int → Position) (filename : String)
    (line : Int) :
    ∀ (fuel start p : Nat), resolveLoop prg srcf filename line start fuel = some p →
      bpMatchAt prg srcf filename line p = true ∧ start ≤ p ∧ p < start + fuel ∧
      ∀ q, start ≤ q → q < p → bpMatchAt prg srcf filename line q = false := by
  intro fuel
  induction fuel with
  | zero =>
    intro start p h
    simp [resolveLoop] at h
  | succ n ih =>
    intro start p h
    simp only [resolveLoop] at h
    by_cases hm : bpMatchAt prg srcf filename line start = true
    · rw [if_pos hm] at h
      have heq : start = p := by simpa using h
      subst heq
      exact ⟨hm, le_refl _, by omega, fun q hq1 hq2 => absurd hq1 (by omega)⟩
    · rw [if_neg hm] at h
      obtain ⟨h1, h2, h3, h4⟩ := ih (start + 1) p h
      refine ⟨h1, by omega, by omega, ?_⟩
      intro q hq1 hq2
      rcases Nat.eq_or_lt_of_le hq1 with heq | hlt
      · rw [← heq]
        exact eq_false_of_ne_true hm
      · exact h4 q (by omega) hq2

theorem resolveLoop_found (prg : Program) (srcf : Int → Position) (filename : String)
    (line : Int) :
    ∀ (fuel start p : Nat), start ≤ p → p < start + fuel →
      bpMatchAt prg srcf filename line p = true →
      (∀ q, start ≤ q → q < p → bpMatchAt prg srcf filename line q = false) →
      resolveLoop prg srcf filename line start fuel = some p := by
  intro fuel
  induction fuel with
  | zero =>
    intro start p h1 h2
    omega
  | succ n ih =>
    intro start p h1 h2 h3 h4
    simp only [resolveLoop]
    rcases Nat.eq_or_lt_of_le h1 with heq | hlt
    · rw [heq, if_pos (heq ▸ h3)]
    · have hms : bpMatchAt prg srcf filename line start = false := h4 start (le_refl _) hlt
      rw [if_neg (by simp [hms])]
      exact ih (start + 1) p (by omega) (by omega) h3 (fun q hq1 hq2 => h4 q (by omega) hq2)

/-- C4: while a program is loaded, `AddBreakpoint` resolves the breakpoint to
the smallest PC whose source-map entry is valid and matches the requested
filename and line (the column is not consulted), and enters that PC into the
PC index; when no PC matches, the breakpoint stays unresolved (pc = -1) and the
PC index is unchanged. -/
theorem addBreakpoint_resolution (d : Debugger) (prg : Program) (filename : String)
    (line column : Int) :
    ((∀ pc : Nat, pc < prg.code.length → progMatch prg filename line pc = false) →
      (List.lookup (d.AddBreakpoint (some prg) filename line column).fst
          ((d.AddBreakpoint (some prg) filename line column).snd.breakpoints)).map
        Breakpoint.pc = some (-1) ∧
      (d.AddBreakpoint (some prg) filename line column).snd.pcBreakpoints =
        d.pcBreakpoints) ∧
    (∀ pc : Nat, pc < prg.code.length → progMatch prg filename line pc = true →
      (∀ q : Nat, q < pc → progMatch prg filename line q = false) →
      (List.lookup (d.AddBreakpoint (some prg) filename line column).fst
          ((d.AddBreakpoint (some prg) filename line column).snd.breakpoints)).map
        Breakpoint.pc = some ((pc : Nat) : Int) ∧
      (d.AddBreakpoint (some prg) filename line column).snd.pcBreakpoints =
        assocSet d.pcBreakpoints ((pc : Nat) : Int)
          (d.AddBreakpoint (some prg) filename line column).fst) := by
  constructor
  · intro hall
    cases hsrc : prg.src with
    | none =>
      simp only [Debugger.AddBreakpoint, Debugger.resolveBreakpoint, hsrc]
      constructor
      · rw [lookup_assocSet_self]
        rfl
      · trivial
    | some srcf =>
      have hnone : resolveLoop prg srcf filename line 0 prg.code.length = none := by
        rw [resolveLoop_none_iff]
        intro k hk
        have hk2 := hall k hk
        simpa [progMatch, hsrc] using hk2
      simp only [Debugger.AddBreakpoint, Debugger.resolveBreakpoint, hsrc, hnone]
      constructor
      · rw [lookup_assocSet_self]
        rfl
      · trivial
  · intro pc hpc hmatch hmin
    cases hsrc : prg.src with
    | none =>
      rw [progMatch, hsrc] at hmatch
      cases hmatch
    | some srcf =>
      have hsome : resolveLoop prg srcf filename line 0 prg.code.length = some pc := by
        apply resolveLoop_found prg srcf filename line prg.code.length 0 pc (Nat.zero_le pc)
          (by omega) (by simpa [progMatch, hsrc] using hmatch)
        intro q _ hq2
        have hq3 := hmin q hq2
        simpa [progMatch, hsrc] using hq3
      simp only [Debugger.AddBreakpoint, Debugger.resolveBreakpoint, hsrc, hsome]
      constructor
      · rw [lookup_assocSet_self]
        rfl
      · trivial

/-- A three-instruction program whose PCs 1 and 2 both map to line 7 of w.js
(PC 0 has no source position). -/
def prgTwoLines : Program :=
  { code := [Instr.other, Instr.other, Instr.other]
    srcMap := [{ srcPos := -1 }, { srcPos := 10 }, { srcPos := 20 }]
    src := some fun off => { filename := "w.js", line := 7, column := off } }

/-- Witness for C4 at a concrete input: two PCs match line 7 and resolution
picks the smaller one (PC 1), indexing it; the requested column (3) is
ignored. -/
theorem addBreakpoint_resolution_witness :
    (List.lookup (newDebugger.AddBreakpoint (some prgTwoLines) "w.js" 7 3).fst
        ((newDebugger.AddBreakpoint (some prgTwoLines) "w.js" 7 3).snd.breakpoints)).map
      Breakpoint.pc = some ((1 : Nat) : Int) ∧
    (newDebugger.AddBreakpoint (some prgTwoLines) "w.js" 7 3).snd.pcBreakpoints =
      assocSet newDebugger.pcBreakpoints ((1 : Nat) : Int)
        (newDebugger.AddBreakpoint (some prgTwoLines) "w.js" 7 3).fst :=
  (addBreakpoint_resolution newDebugger prgTwoLines "w.js" 7 3).2 1 (by decide) (by decide)
    (by decide)

/-! C6 — GetVariables on invalid and stale handles. -/

/-- All registry handles are at least the allocation base 1000 (they are
allocated from `nextVarRef`, which starts at 1000 and only grows). -/
def RegistryWF (d : Debugger) : Prop := ∀ p ∈ d.variableRefs, 1000 ≤ p.fst

instance (d : Debugger) : Decidable (RegistryWF d) := by
  unfold RegistryWF
  infer_instance

theorem registryWF_lookup_none {d : Debugger} {k : Int} (hwf : RegistryWF d)
    (hk : k < 1000) : List.lookup k d.variableRefs = none := by
  cases hl : List.lookup k d.variableRefs with
  | none => rfl
  | some v =>
    have hmem := hwf (k, v) (lookup_mem hl)
    simp at hmem
    omega

/-- C6 (amended): `GetVariables` never fails fatally; it returns the empty
list (and leaves the state alone) for a zero handle and for a positive handle
that was never allocated; resume (`Continue`) does not clear the registry, so
a stale handle allocated during an earlier pause keeps returning the entry's
current data rather than the empty list. -/
theorem getVariables_invalid_handles (d : Debugger) (stack : List StackFrame)
    (globalProps : Option (List (String × Value))) (hwf : RegistryWF d) :
    ((d.GetVariables stack globalProps 0).fst = [] ∧
      (d.GetVariables stack globalProps 0).snd = d) ∧
    (∀ ref : Int, 0 < ref → List.lookup ref d.variableRefs = none →
      (d.GetVariables stack globalProps ref).fst = [] ∧
      (d.GetVariables stack globalProps ref).snd = d) ∧
    (d.Continue).variableRefs = d.variableRefs := by
  refine ⟨?_, ?_, rfl⟩
  · have h0 : List.lookup (0 : Int) d.variableRefs = none :=
      registryWF_lookup_none hwf (by omega)
    simp [Debugger.GetVariables, h0]
  · intro ref href hnone
    have hneg : ¬(ref < 0) := by omega
    simp [Debugger.GetVariables, hneg, hnone]

/-- The scope handles allocated by a GetScopes call during a pause. -/
def gsCex : List Scope × Debugger := newDebugger.GetScopes true 1 0

/-- The debugger state after the pause ends: execution resumed via Continue,
which does not clear the registry. -/
def dCexStale : Debugger := gsCex.snd.Continue

/-- The call stack as it stands when the stale handle is used later. -/
def staleStack : List StackFrame :=
  [{ localVars := some [("a", Value.vNumber 1)], ctx := none }]

/-- C6 counterexample: handle 1000 was allocated during an earlier pause (by
GetScopes); after resume the registry still holds it, and `GetVariables` on
the stale handle returns one variable, not the empty list the claim
requires. -/
theorem getVariables_stale_counterexample :
    gsCex.fst.map Scope.variablesRef = [1000, 1001] ∧
    dCexStale.variableRefs = gsCex.snd.variableRefs ∧
    (dCexStale.GetVariables staleStack none 1000).fst.length = 1 ∧
    (dCexStale.GetVariables staleStack none 1000).fst ≠ [] := by
  have hlen : (dCexStale.GetVariables staleStack none 1000).fst.length = 1 := by decide
  refine ⟨by decide, rfl, hlen, ?_⟩
  intro hempty
  rw [hempty] at hlen
  simp at hlen

/-- Witness for C6 at a concrete registry (the one GetScopes populated): the
zero handle and an unallocated positive handle both yield empty results with
the state unchanged, and Continue preserves the registry. -/
theorem getVariables_invalid_handles_witness :
    ((gsCex.snd.GetVariables [] none 0).fst = [] ∧
      (gsCex.snd.GetVariables [] none 0).snd = gsCex.snd) ∧
    ((gsCex.snd.GetVariables [] none 555).fst = [] ∧
      (gsCex.snd.GetVariables [] none 555).snd = gsCex.snd) ∧
    (gsCex.snd.Continue).variableRefs = gsCex.snd.variableRefs := by
  have happ := getVariables_invalid_handles gsCex.snd [] none (by decide)
  exact ⟨happ.1, happ.2.1 555 (by decide) rfl, happ.2.2⟩

/-! C9 — hit-count accounting and monotonicity. -/

/-- All breakpoint ids are below the id allocator (ids come from `nextID`,
which starts at 0 and only grows). -/
def BpWF (d : Debugger) : Prop := ∀ p ∈ d.breakpoints, p.fst < d.nextID

instance (d : Debugger) : Decidable (BpWF d) := by
  unfold BpWF
  infer_instance

/-- The pause predicate reaches the breakpoint check and finds the enabled
entry `bid` there: no native context, no step-into call deferral, not already
paused, and the PC index resolves to an enabled breakpoint with this id. -/
def hitHappens (d : Debugger) (vm : VM) (bid : Int) : Bool :=
  match vm.prg with
  | none => false
  | some prg =>
    if d.flags &&& FlagStepMode ≠ 0 ∧ d.stepMode = DebugCommand.debugStepInto ∧
        prg.code[vm.pc]? = some Instr.call then false
    else if d.flags &&& FlagPaused ≠ 0 then false
    else
      match d.pcBreakpointAt vm.pc with
      | some e => decide (e.fst = bid) && e.snd.enabled
      | none => false

/-- Running a sequence of debugger operations. -/
def runOps (ops : List DebugOp) (d : Debugger) : Debugger :=
  ops.foldl (fun d op => applyOp op d) d

theorem pcBreakpointAt_lookup {d : Debugger} {pc : Nat} {e : Int × Breakpoint}
    (h : d.pcBreakpointAt pc = some e) :
    List.lookup e.fst d.breakpoints = some e.snd := by
  unfold Debugger.pcBreakpointAt at h
  cases h1 : List.lookup (Int.ofNat pc) d.pcBreakpoints with
  | none =>
    rw [h1] at h
    cases h
  | some bid =>
    rw [h1] at h
    dsimp only at h
    cases h2 : List.lookup bid d.breakpoints with
    | none =>
      rw [h2] at h
      cases h
    | some bp =>
      rw [h2] at h
      dsimp only at h
      cases h
      exact h2

theorem resolveBreakpoint_shape (d : Debugger) (prgOpt : Option Program) (bp : Breakpoint) :
    (d.resolveBreakpoint prgOpt bp).snd.breakpoints = d.breakpoints ∧
    (d.resolveBreakpoint prgOpt bp).snd.nextID = d.nextID := by
  unfold Debugger.resolveBreakpoint
  cases prgOpt with
  | none => exact ⟨rfl, rfl⟩
  | some prg =>
    dsimp only
    cases hs : prg.src with
    | none => exact ⟨rfl, rfl⟩
    | some srcf =>
      dsimp only
      cases resolveLoop prg srcf bp.sourcePos.filename bp.sourcePos.line 0 prg.code.length with
      | none => exact ⟨rfl, rfl⟩
      | some pc => exact ⟨rfl, rfl⟩

theorem AddBreakpoint_lookup_ne (d : Debugger) (prgOpt : Option Program) (filename : String)
    (line column : Int) (bid : Int) (h : bid ≠ d.nextID) :
    List.lookup bid ((d.AddBreakpoint prgOpt filename line column).snd.breakpoints) =
      List.lookup bid d.breakpoints := by
  unfold Debugger.AddBreakpoint
  cases prgOpt with
  | none =>
    dsimp only
    exact lookup_assocSet_ne _ _ _ _ h
  | some prg =>
    dsimp only
    rw [lookup_assocSet_ne _ _ _ _ h, (resolveBreakpoint_shape _ _ _).1]
    exact lookup_assocSet_ne _ _ _ _ h

theorem AddBreakpoint_nextID (d : Debugger) (prgOpt : Option Program) (filename : String)
    (line column : Int) :
    (d.AddBreakpoint prgOpt filename line column).snd.nextID = d.nextID + 1 := by
  unfold Debugger.AddBreakpoint
  cases prgOpt with
  | none => rfl
  | some prg =>
    dsimp only
    rw [(resolveBreakpoint_shape _ _ _).2]

theorem AddBreakpoint_mem (d : Debugger) (prgOpt : Option Program) (filename : String)
    (line column : Int) {p : Int × Breakpoint}
    (hp : p ∈ (d.AddBreakpoint prgOpt filename line column).snd.breakpoints) :
    p.fst = d.nextID ∨ p ∈ d.breakpoints := by
  unfold Debugger.AddBreakpoint at hp
  cases prgOpt with
  | none =>
    dsimp only at hp
    rcases mem_assocSet hp with h1 | h1
    · exact Or.inl (by rw [h1])
    · exact Or.inr h1
  | some prg =>
    dsimp only at hp
    rcases mem_assocSet hp with h1 | h1
    · exact Or.inl (by rw [h1])
    · rw [(resolveBreakpoint_shape _ _ _).1] at h1
      rcases mem_assocSet h1 with h2 | h2
      · exact Or.inl (by rw [h2])
      · exact Or.inr h2

theorem buildVariables_preserves (d : Debugger) (props : List (String × Value)) :
    (buildVariables d props).snd.breakpoints = d.breakpoints ∧
    (buildVariables d props).snd.nextID = d.nextID := by
  unfold buildVariables
  have h : ∀ acc : List Variable × Debugger,
      (props.foldl buildVarStep acc).snd.breakpoints = acc.snd.breakpoints ∧
      (props.foldl buildVarStep acc).snd.nextID = acc.snd.nextID := by
    induction props with
    | nil =>
      intro acc
      exact ⟨rfl, rfl⟩
    | cons p t ih =>
      intro acc
      rw [List.foldl_cons]
      obtain ⟨h1, h2⟩ := ih (buildVarStep acc p)
      have hstep : (buildVarStep acc p).snd.breakpoints = acc.snd.breakpoints ∧
          (buildVarStep acc p).snd.nextID = acc.snd.nextID := by
        unfold buildVarStep
        cases p.snd <;> exact ⟨rfl, rfl⟩
      exact ⟨h1.trans hstep.1, h2.trans hstep.2⟩
  exact h ([], d)

theorem getVariablesForScope_preserves (d : Debugger) (stack : List StackFrame)
    (globalProps : Option (List (String × Value))) (frameID : Int) (scopeType : String) :
    (d.getVariablesForScope stack globalProps frameID scopeType).snd.breakpoints =
      d.breakpoints ∧
    (d.getVariablesForScope stack globalProps frameID scopeType).snd.nextID = d.nextID := by
  unfold Debugger.getVariablesForScope Debugger.extractGlobalVariables
  split_ifs
  · exact ⟨rfl, rfl⟩
  · split
    · split
      · split
        · exact buildVariables_preserves _ _
        · exact ⟨rfl, rfl⟩
      · exact ⟨rfl, rfl⟩
    · split
      · exact ⟨rfl, rfl⟩
      · exact buildVariables_preserves _ _
    · exact ⟨rfl, rfl⟩

theorem GetVariables_preserves (d : Debugger) (stack : List StackFrame)
    (globalProps : Option (List (String × Value))) (ref : Int) :
    (d.GetVariables stack globalProps ref).snd.breakpoints = d.breakpoints ∧
    (d.GetVariables stack globalProps ref).snd.nextID = d.nextID := by
  unfold Debugger.GetVariables Debugger.resolveLazyScope
  split_ifs
  · dsimp only
    split_ifs
    · exact getVariablesForScope_preserves _ _ _ _ _
    · exact getVariablesForScope_preserves _ _ _ _ _
    · exact ⟨rfl, rfl⟩
  · split
    · exact ⟨rfl, rfl⟩
    · exact getVariablesForScope_preserves _ _ _ _ _
    · exact buildVariables_preserves _ _

theorem GetScopes_preserves (d : Debugger) (vmPresent : Bool) (callStackLen : Nat)
    (frameID : Int) :
    (d.GetScopes vmPresent callStackLen frameID).snd.breakpoints = d.breakpoints ∧
    (d.GetScopes vmPresent callStackLen frameID).snd.nextID = d.nextID := by
  unfold Debugger.GetScopes Debugger.createVariableRef
  split_ifs <;> exact ⟨rfl, rfl⟩

theorem handlePause_preserves (d : Debugger) (vm : VM)
    (handler : Option (DebuggerState → DebugCommand)) :
    (d.handlePause vm handler).breakpoints = d.breakpoints ∧
    (d.handlePause vm handler).nextID = d.nextID := by
  unfold Debugger.handlePause
  cases handler with
  | none => exact ⟨rfl, rfl⟩
  | some h =>
    dsimp only
    cases h (d.buildState vm) <;>
      simp only [Debugger.Continue, Debugger.StepOver, Debugger.StepInto, Debugger.StepOut] <;>
      split_ifs <;> exact ⟨rfl, rfl⟩

theorem checkBreakpoint_snd_shape (d : Debugger) (vm : VM) :
    (d.checkBreakpoint vm).snd.nextID = d.nextID ∧
    ((d.checkBreakpoint vm).snd.breakpoints = d.breakpoints ∨
      ∃ e, d.pcBreakpointAt vm.pc = some e ∧ e.snd.enabled = true ∧
        (d.checkBreakpoint vm).snd.breakpoints =
          assocSet d.breakpoints e.fst { e.snd with hit := e.snd.hit + 1 }) := by
  cases hprg : vm.prg with
  | none => simp [Debugger.checkBreakpoint, hprg]
  | some prg =>
    simp only [Debugger.checkBreakpoint, hprg]
    split_ifs with h1 h2
    · exact ⟨rfl, Or.inl rfl⟩
    · exact ⟨rfl, Or.inl rfl⟩
    · cases hbp : d.pcBreakpointAt vm.pc with
      | some e =>
        dsimp only
        by_cases h3 : e.snd.enabled = true
        · rw [if_pos h3]
          exact ⟨rfl, Or.inr ⟨e, rfl, h3, rfl⟩⟩
        · rw [if_neg h3]
          rcases stepModeCheck_cases d prg vm with hc | hc <;> rw [hc]
          · exact ⟨rfl, Or.inl rfl⟩
          · exact ⟨rfl, Or.inl rfl⟩
      | none =>
        dsimp only
        rcases stepModeCheck_cases d prg vm with hc | hc <;> rw [hc]
        · exact ⟨rfl, Or.inl rfl⟩
        · exact ⟨rfl, Or.inl rfl⟩

theorem RemoveBreakpoint_shape (d : Debugger) (id : Int) :
    ((d.RemoveBreakpoint id).snd.breakpoints = d.breakpoints ∨
      (d.RemoveBreakpoint id).snd.breakpoints = assocErase d.breakpoints id) ∧
    (d.RemoveBreakpoint id).snd.nextID = d.nextID := by
  unfold Debugger.RemoveBreakpoint
  cases hl : List.lookup id d.breakpoints with
  | none => exact ⟨Or.inl rfl, rfl⟩
  | some bp =>
    dsimp only
    split_ifs <;> exact ⟨Or.inr rfl, rfl⟩

theorem EnableBreakpoint_shape (d : Debugger) (id : Int) (en : Bool) :
    ((d.EnableBreakpoint id en).snd.breakpoints = d.breakpoints ∨
      ∃ bp, List.lookup id d.breakpoints = some bp ∧
        (d.EnableBreakpoint id en).snd.breakpoints =
          assocSet d.breakpoints id { bp with enabled := en }) ∧
    (d.EnableBreakpoint id en).snd.nextID = d.nextID := by
  unfold Debugger.EnableBreakpoint
  cases hl : List.lookup id d.breakpoints with
  | none => exact ⟨Or.inl rfl, rfl⟩
  | some bp =>
    dsimp only
    exact ⟨Or.inr ⟨bp, rfl, rfl⟩, rfl⟩

/-- The generic hit-step conclusion when an operation leaves the breakpoint
store alone and does not shrink the id allocator. -/
theorem hit_step_of_preserved {d d2 : Debugger} (bid : Int)
    (hb : d2.breakpoints = d.breakpoints) (hn : d.nextID ≤ d2.nextID) :
    (∀ bp, List.lookup bid d.breakpoints = some bp →
      (List.lookup bid d2.breakpoints = none ∨
        ∃ bp2, List.lookup bid d2.breakpoints = some bp2 ∧ bp.hit ≤ bp2.hit)) ∧
    (List.lookup bid d.breakpoints = none → bid < d.nextID →
      List.lookup bid d2.breakpoints = none) ∧
    d.nextID ≤ d2.nextID := by
  refine ⟨fun bp h => Or.inr ⟨bp, by rw [hb]; exact h, le_refl _⟩,
    fun h _ => by rw [hb]; exact h, hn⟩

/-- One debugger operation never decreases the hit count of a surviving
breakpoint, keeps an absent (already-allocated) id absent, and never shrinks
the id allocator. -/
theorem applyOp_hit (op : DebugOp) (d : Debugger) (bid : Int) (hwf : BpWF d) :
    (∀ bp, List.lookup bid d.breakpoints = some bp →
      (List.lookup bid ((applyOp op d).breakpoints) = none ∨
        ∃ bp2, List.lookup bid ((applyOp op d).breakpoints) = some bp2 ∧ bp.hit ≤ bp2.hit)) ∧
    (List.lookup bid d.breakpoints = none → bid < d.nextID →
      List.lookup bid ((applyOp op d).breakpoints) = none) ∧
    d.nextID ≤ (applyOp op d).nextID := by
  cases op with
  | addBreakpoint prgOpt filename line column =>
    simp only [applyOp]
    refine ⟨?_, ?_, ?_⟩
    · intro bp hsome
      have hne : bid ≠ d.nextID := by
        have hlt := hwf (bid, bp) (lookup_mem hsome)
        simp at hlt
        omega
      exact Or.inr ⟨bp,
        by rw [AddBreakpoint_lookup_ne d prgOpt filename line column bid hne]; exact hsome,
        le_refl _⟩
    · intro hnone hlt
      have hne : bid ≠ d.nextID := by omega
      rw [AddBreakpoint_lookup_ne d prgOpt filename line column bid hne]
      exact hnone
    · rw [AddBreakpoint_nextID]
      omega
  | removeBreakpoint id =>
    simp only [applyOp]
    have hn : d.nextID ≤ (d.RemoveBreakpoint id).snd.nextID :=
      le_of_eq (RemoveBreakpoint_shape d id).2.symm
    rcases (RemoveBreakpoint_shape d id).1 with hb | hb
    · exact hit_step_of_preserved bid hb hn
    · refine ⟨?_, ?_, hn⟩
      · intro bp hsome
        by_cases hbid : bid = id
        · left
          rw [hb, hbid]
          exact lookup_assocErase_self _ _
        · exact Or.inr ⟨bp,
            by rw [hb, lookup_assocErase_ne d.breakpoints id bid hbid]; exact hsome, le_refl _⟩
      · intro hnone _
        by_cases hbid : bid = id
        · rw [hb, hbid]
          exact lookup_assocErase_self _ _
        · rw [hb, lookup_assocErase_ne d.breakpoints id bid hbid]
          exact hnone
  | enableBreakpoint id en =>
    simp only [applyOp]
    have hn : d.nextID ≤ (d.EnableBreakpoint id en).snd.nextID :=
      le_of_eq (EnableBreakpoint_shape d id en).2.symm
    rcases (EnableBreakpoint_shape d id en).1 with hb | ⟨bpe, hlkp, hb⟩
    · exact hit_step_of_preserved bid hb hn
    · refine ⟨?_, ?_, hn⟩
      · intro bp hsome
        by_cases hbid : bid = id
        · subst hbid
          have hbe : bpe = bp := by
            rw [hsome] at hlkp
            exact (Option.some.inj hlkp).symm
          subst hbe
          exact Or.inr ⟨{ bpe with enabled := en },
            by rw [hb]; exact lookup_assocSet_self _ _ _, le_refl _⟩
        · exact Or.inr ⟨bp,
            by rw [hb, lookup_assocSet_ne d.breakpoints id bid _ hbid]; exact hsome, le_refl _⟩
      · intro hnone _
        by_cases hbid : bid = id
        · rw [hbid] at hnone
          rw [hnone] at hlkp
          cases hlkp
        · rw [hb, lookup_assocSet_ne d.breakpoints id bid _ hbid]
          exact hnone
  | setStepMode en =>
    simp only [applyOp]
    exact hit_step_of_preserved bid (by unfold Debugger.SetStepMode; split_ifs <;> rfl)
      (by unfold Debugger.SetStepMode; split_ifs <;> exact le_refl _)
  | continueOp =>
    simp only [applyOp]
    exact hit_step_of_preserved bid rfl (le_refl _)
  | stepOver n =>
    simp only [applyOp]
    exact hit_step_of_preserved bid rfl (le_refl _)
  | stepInto =>
    simp only [applyOp]
    exact hit_step_of_preserved bid rfl (le_refl _)
  | stepOut n =>
    simp only [applyOp]
    exact hit_step_of_preserved bid rfl (le_refl _)
  | pauseOp =>
    simp only [applyOp]
    exact hit_step_of_preserved bid rfl (le_refl _)
  | checkOp vm =>
    simp only [applyOp]
    have hn : d.nextID ≤ (d.checkBreakpoint vm).snd.nextID :=
      le_of_eq (checkBreakpoint_snd_shape d vm).1.symm
    rcases (checkBreakpoint_snd_shape d vm).2 with hb | ⟨e, hbp, hen, hb⟩
    · exact hit_step_of_preserved bid hb hn
    · refine ⟨?_, ?_, hn⟩
      · intro bp hsome
        by_cases hbid : bid = e.fst
        · have hbe : e.snd = bp := by
            have hl := pcBreakpointAt_lookup hbp
            rw [← hbid, hsome] at hl
            exact (Option.some.inj hl).symm
          exact Or.inr ⟨{ e.snd with hit := e.snd.hit + 1 },
            by rw [hb, hbid]; exact lookup_assocSet_self _ _ _,
            by rw [hbe]; exact Nat.le_succ _⟩
        · exact Or.inr ⟨bp,
            by rw [hb, lookup_assocSet_ne d.breakpoints e.fst bid _ hbid]; exact hsome,
            le_refl _⟩
      · intro hnone _
        by_cases hbid : bid = e.fst
        · have hl := pcBreakpointAt_lookup hbp
          rw [← hbid, hnone] at hl
          cases hl
        · rw [hb, lookup_assocSet_ne d.breakpoints e.fst bid _ hbid]
          exact hnone
  | handlePauseOp vm handler =>
    simp only [applyOp]
    exact hit_step_of_preserved bid (handlePause_preserves d vm handler).1
      (le_of_eq (handlePause_preserves d vm handler).2.symm)
  | getScopes vmPresent callStackLen frameID =>
    simp only [applyOp]
    exact hit_step_of_preserved bid (GetScopes_preserves d vmPresent callStackLen frameID).1
      (le_of_eq (GetScopes_preserves d vmPresent callStackLen frameID).2.symm)
  | getVariables stack globalProps ref =>
    simp only [applyOp]
    exact hit_step_of_preserved bid (GetVariables_preserves d stack globalProps ref).1
      (le_of_eq (GetVariables_preserves d stack globalProps ref).2.symm)

/-- Every debugger operation keeps all breakpoint ids below the id
allocator. -/
theorem applyOp_wf (op : DebugOp) (d : Debugger) (hwf : BpWF d) : BpWF (applyOp op d) := by
  have hpres : ∀ d2 : Debugger, d2.breakpoints = d.breakpoints → d2.nextID = d.nextID →
      BpWF d2 := by
    intro d2 hb hn p hp
    rw [hb] at hp
    rw [hn]
    exact hwf p hp
  cases op with
  | addBreakpoint prgOpt filename line column =>
    intro p hp
    simp only [applyOp] at hp ⊢
    rw [AddBreakpoint_nextID]
    rcases AddBreakpoint_mem d prgOpt filename line column hp with h1 | h1
    · omega
    · have := hwf p h1
      omega
  | removeBreakpoint id =>
    intro p hp
    simp only [applyOp] at hp ⊢
    rw [(RemoveBreakpoint_shape d id).2]
    rcases (RemoveBreakpoint_shape d id).1 with hb | hb
    · rw [hb] at hp
      exact hwf p hp
    · rw [hb] at hp
      exact hwf p (mem_assocErase hp)
  | enableBreakpoint id en =>
    intro p hp
    simp only [applyOp] at hp ⊢
    rw [(EnableBreakpoint_shape d id en).2]
    rcases (EnableBreakpoint_shape d id en).1 with hb | ⟨bpe, hlkp, hb⟩
    · rw [hb] at hp
      exact hwf p hp
    · rw [hb] at hp
      rcases mem_assocSet hp with h1 | h1
      · have hidlt := hwf (id, bpe) (lookup_mem hlkp)
        simp at hidlt
        rw [h1]
        simpa using hidlt
      · exact hwf p h1
  | setStepMode en =>
    simp only [applyOp]
    unfold Debugger.SetStepMode
    split_ifs <;> exact hpres _ rfl rfl
  | continueOp => exact hpres _ rfl rfl
  | stepOver n => exact hpres _ rfl rfl
  | stepInto => exact hpres _ rfl rfl
  | stepOut n => exact hpres _ rfl rfl
  | pauseOp => exact hpres _ rfl rfl
  | checkOp vm =>
    intro p hp
    simp only [applyOp] at hp ⊢
    rw [(checkBreakpoint_snd_shape d vm).1]
    rcases (checkBreakpoint_snd_shape d vm).2 with hb | ⟨e, hbp, hen, hb⟩
    · rw [hb] at hp
      exact hwf p hp
    · rw [hb] at hp
      rcases mem_assocSet hp with h1 | h1
      · have hidlt := hwf (e.fst, e.snd) (lookup_mem (pcBreakpointAt_lookup hbp))
        simp at hidlt
        rw [h1]
        simpa using hidlt
      · exact hwf p h1
  | handlePauseOp vm handler =>
    exact hpres _ (handlePause_preserves d vm handler).1 (handlePause_preserves d vm handler).2
  | getScopes vmPresent callStackLen frameID =>
    exact hpres _ (GetScopes_preserves d vmPresent callStackLen frameID).1
      (GetScopes_preserves d vmPresent callStackLen frameID).2
  | getVariables stack globalProps ref =>
    exact hpres _ (GetVariables_preserves d stack globalProps ref).1
      (GetVariables_preserves d stack globalProps ref).2

theorem runOps_none (ops : List DebugOp) :
    ∀ (d : Debugger) (bid : Int), BpWF d → bid < d.nextID →
      List.lookup bid d.breakpoints = none →
      List.lookup bid ((runOps ops d).breakpoints) = none := by
  induction ops with
  | nil =>
    intro d bid _ _ hnone
    exact hnone
  | cons op t ih =>
    intro d bid hwf hlt hnone
    have hstep := applyOp_hit op d bid hwf
    exact ih (applyOp op d) bid (applyOp_wf op d hwf) (lt_of_lt_of_le hlt hstep.2.2)
      (hstep.2.1 hnone hlt)

theorem runOps_some (ops : List DebugOp) :
    ∀ (d : Debugger) (bid : Int) (bp : Breakpoint), BpWF d →
      List.lookup bid d.breakpoints = some bp →
      (List.lookup bid ((runOps ops d).breakpoints) = none ∨
        ∃ bp2, List.lookup bid ((runOps ops d).breakpoints) = some bp2 ∧ bp.hit ≤ bp2.hit) := by
  induction ops with
  | nil =>
    intro d bid bp _ hsome
    exact Or.inr ⟨bp, hsome, le_refl _⟩
  | cons op t ih =>
    intro d bid bp hwf hsome
    have hwf2 := applyOp_wf op d hwf
    have hbid_lt : bid < d.nextID := by
      have := hwf (bid, bp) (lookup_mem hsome)
      simpa using this
    have hlt2 : bid < (applyOp op d).nextID :=
      lt_of_lt_of_le hbid_lt (applyOp_hit op d bid hwf).2.2
    rcases (applyOp_hit op d bid hwf).1 bp hsome with hn | ⟨bp1, hs1, hle1⟩
    · exact Or.inl (runOps_none t (applyOp op d) bid hwf2 hlt2 hn)
    · rcases ih (applyOp op d) bid bp1 hwf2 hs1 with hn2 | ⟨bp2, hs2, hle2⟩
      · exact Or.inl hn2
      · exact Or.inr ⟨bp2, hs2, le_trans hle1 hle2⟩

/-- C9: a breakpoint's hit count is incremented exactly when the pause
predicate reaches its breakpoint check and finds an enabled entry for the
current PC in the PC index — and then by exactly one — while EnableBreakpoint
(including disabling and re-enabling) rewrites only the enabled bit, and over
any sequence of debugger operations the hit count of a surviving breakpoint is
monotonically non-decreasing. -/
theorem hit_count_accounting :
    (∀ (d : Debugger) (vm : VM) (bid : Int) (bp : Breakpoint),
        List.lookup bid d.breakpoints = some bp →
        List.lookup bid ((d.checkBreakpoint vm).snd.breakpoints) =
          some { bp with hit := bp.hit + (if hitHappens d vm bid then 1 else 0) }) ∧
    (∀ (d : Debugger) (id : Int) (en : Bool) (bp : Breakpoint),
        List.lookup id d.breakpoints = some bp →
        List.lookup id ((d.EnableBreakpoint id en).snd.breakpoints) =
          some { bp with enabled := en }) ∧
    (∀ (ops : List DebugOp) (d : Debugger) (bid : Int) (bp bp2 : Breakpoint),
        BpWF d → List.lookup bid d.breakpoints = some bp →
        List.lookup bid ((runOps ops d).breakpoints) = some bp2 →
        bp.hit ≤ bp2.hit) := by
  refine ⟨?_, ?_, ?_⟩
  · intro d vm bid bp hsome
    cases hprg : vm.prg with
    | none =>
      have hh : hitHappens d vm bid = false := by simp [hitHappens, hprg]
      have hsnd : (d.checkBreakpoint vm).snd = d := by simp [Debugger.checkBreakpoint, hprg]
      rw [hsnd, hh]
      simpa using hsome
    | some prg =>
      simp only [Debugger.checkBreakpoint, hitHappens, hprg]
      by_cases h1 : d.flags &&& FlagStepMode ≠ 0 ∧ d.stepMode = DebugCommand.debugStepInto ∧
          prg.code[vm.pc]? = some Instr.call
      · rw [if_pos h1, if_pos h1]
        simpa using hsome
      · rw [if_neg h1, if_neg h1]
        by_cases h2 : d.flags &&& FlagPaused ≠ 0
        · rw [if_pos h2, if_pos h2]
          simpa using hsome
        · rw [if_neg h2, if_neg h2]
          cases hbp : d.pcBreakpointAt vm.pc with
          | none =>
            dsimp only
            rcases stepModeCheck_cases d prg vm with hc | hc <;> rw [hc] <;> simpa using hsome
          | some e =>
            dsimp only
            by_cases h3 : e.snd.enabled = true
            · rw [if_pos h3]
              dsimp only
              by_cases hbid : e.fst = bid
              · have hbe : e.snd = bp := by
                  have hl := pcBreakpointAt_lookup hbp
                  rw [hbid, hsome] at hl
                  exact (Option.some.inj hl).symm
                have hcond : (decide (e.fst = bid) && e.snd.enabled) = true := by
                  rw [h3]
                  simp [hbid]
                rw [if_pos hcond, hbid, hbe]
                exact lookup_assocSet_self _ _ _
              · have hcond : ¬((decide (e.fst = bid) && e.snd.enabled) = true) := by
                  simp [hbid]
                rw [if_neg hcond,
                  lookup_assocSet_ne d.breakpoints e.fst bid _ (fun hh2 => hbid hh2.symm)]
                simpa using hsome
            · rw [if_neg h3]
              have hcond : ¬((decide (e.fst = bid) && e.snd.enabled) = true) := by
                simp [eq_false_of_ne_true h3]
              rw [if_neg hcond]
              rcases stepModeCheck_cases d prg vm with hc | hc <;> rw [hc] <;> simpa using hsome
  · intro d id en bp hsome
    unfold Debugger.EnableBreakpoint
    rw [hsome]
    dsimp only
    exact lookup_assocSet_self _ _ _
  · intro ops d bid bp bp2 hwf hsome hsome2
    rcases runOps_some ops d bid bp hwf hsome with hn | ⟨bp3, hs3, hle3⟩
    · rw [hn] at hsome2
      cases hsome2
    · rw [hs3] at hsome2
      rw [← Option.some.inj hsome2]
      exact hle3

def bpEnabled : Breakpoint :=
  { id := 0
    sourcePos := { filename := "test.js", line := 1, column := 1 }
    pc := 0
    enabled := true
    hit := 4 }

def dHit : Debugger :=
  { newDebugger with breakpoints := [(0, bpEnabled)], pcBreakpoints := [(0, 0)], nextID := 1 }

/-- Witness for C9 at a concrete input: a hit at the enabled breakpoint
increments the count from 4 to 5, EnableBreakpoint keeps the count, and after
hit + disable + re-enable the count is 5 ≥ 4. -/
theorem hit_count_accounting_witness :
    List.lookup 0 ((dHit.checkBreakpoint vmNoSrcPos).snd.breakpoints) =
      some { bpEnabled with
              hit := bpEnabled.hit + (if hitHappens dHit vmNoSrcPos 0 then 1 else 0) } ∧
    List.lookup 0 ((dHit.EnableBreakpoint 0 false).snd.breakpoints) =
      some { bpEnabled with enabled := false } ∧
    bpEnabled.hit ≤ ({ bpEnabled with hit := 5 } : Breakpoint).hit := by
  refine ⟨hit_count_accounting.1 dHit vmNoSrcPos 0 bpEnabled rfl,
    hit_count_accounting.2.1 dHit 0 false bpEnabled rfl,
    hit_count_accounting.2.2
      [DebugOp.checkOp vmNoSrcPos, DebugOp.enableBreakpoint 0 false,
        DebugOp.enableBreakpoint 0 true]
      dHit 0 bpEnabled { bpEnabled with hit := 5, enabled := true } (by decide) rfl (by decide)⟩

end Goja
